import Mathlib

/-!
Verification of the AudioCaptureKit core (`audio-capture-core`).

Shallow embedding of the Rust sources into Lean:
* `f32`/`f64` sample values and rates are modelled as `ℚ` (the code only
  moves, adds, scales and compares them; no claim depends on rounding of
  binary floats),
* machine integers are `ℕ`/`ℤ` with explicit `% 2^w` where the code wraps,
* `Vec<u8>` file contents are `List ℕ` of byte values,
* fallible operations return `Except CaptureError _`.

Sources embedded:
* `processing/ring_buffer.rs`   → `RingBuffer`
* `processing/stereo_mixer.rs`  → `StereoMixer`
* `processing/wav_format.rs`    → `wav_format`
* `storage/encrypted_writer.rs` → `EncryptedFileWriter`
* `models/config.rs`, `models/state.rs`, `models/error.rs`,
  `session/composite.rs`        → `CompositeSession`
-/

namespace AudioCaptureKit

/-! ## Ring buffer (`processing/ring_buffer.rs`)

`RingBuffer` stores `f32` samples (here `ℚ`) in a fixed circular `Vec`
with a read index, a write index and an `available` count. -/

structure RingBuffer where
  buffer : List ℚ
  write_index : ℕ
  read_index : ℕ
  available : ℕ
  capacity : ℕ
deriving Repr, DecidableEq

/-- `RingBuffer::new(capacity)`: zero-filled buffer, both indices 0. -/
def RingBuffer.new (capacity : ℕ) : RingBuffer :=
  { buffer := List.replicate capacity 0
    write_index := 0
    read_index := 0
    available := 0
    capacity := capacity }

/-- The sample-by-sample store loop in `RingBuffer::write`:
`self.buffer[self.write_index] = sample; self.write_index = (self.write_index + 1) % self.capacity`. -/
def writeLoop (buf : List ℚ) (w C : ℕ) : List ℚ → List ℚ × ℕ
  | [] => (buf, w)
  | s :: rest => writeLoop (buf.set w s) ((w + 1) % C) C rest

/-- `RingBuffer::write`: keep only the last `capacity` samples of an oversized
write, advance the read index past the overflow (drop-oldest), then store the
samples and bump `available`. -/
def RingBuffer.write (rb : RingBuffer) (samples : List ℚ) : RingBuffer :=
  if samples.isEmpty then rb
  else
    let samples := if samples.length > rb.capacity then
        samples.drop (samples.length - rb.capacity)
      else samples
    let overflow := rb.available + samples.length - rb.capacity
    let rb1 := if overflow > 0 then
        { rb with read_index := (rb.read_index + overflow) % rb.capacity
                  available := rb.available - overflow }
      else rb
    let stored := writeLoop rb1.buffer rb1.write_index rb1.capacity samples
    { rb1 with buffer := stored.1
               write_index := stored.2
               available := rb1.available + samples.length }

/-- `RingBuffer::read(count)`: return up to `count` samples in FIFO order and
advance the read index. -/
def RingBuffer.read (rb : RingBuffer) (count : ℕ) : List ℚ × RingBuffer :=
  let to_read := min count rb.available
  if to_read = 0 then ([], rb)
  else
    let result := (List.range to_read).map
      (fun i => rb.buffer.getD ((rb.read_index + i) % rb.capacity) 0)
    (result,
      { rb with read_index := (rb.read_index + to_read) % rb.capacity
                available := rb.available - to_read })

/-- `RingBuffer::reset`: indices and count back to zero. -/
def RingBuffer.reset (rb : RingBuffer) : RingBuffer :=
  { rb with write_index := 0, read_index := 0, available := 0 }

/-- `RingBuffer::count`. -/
def RingBuffer.count (rb : RingBuffer) : ℕ := rb.available

/-- Abstraction: the samples currently buffered, oldest first. -/
def RingBuffer.contents (rb : RingBuffer) : List ℚ :=
  (List.range rb.available).map
    (fun i => rb.buffer.getD ((rb.read_index + i) % rb.capacity) 0)

/-- Well-formedness invariant of a ring buffer (the spec's §3 invariants). -/
structure RingBuffer.WF (rb : RingBuffer) : Prop where
  cap_pos : 0 < rb.capacity
  buf_len : rb.buffer.length = rb.capacity
  avail_le : rb.available ≤ rb.capacity
  ridx_lt : rb.read_index < rb.capacity
  widx_lt : rb.write_index < rb.capacity
  widx_eq : rb.write_index = (rb.read_index + rb.available) % rb.capacity

theorem RingBuffer.wf_new {C : ℕ} (hC : 0 < C) : (RingBuffer.new C).WF := by
  constructor <;> simp [RingBuffer.new, Nat.mod_eq_of_lt hC, hC]

theorem RingBuffer.contents_length (rb : RingBuffer) :
    rb.contents.length = rb.available := by
  simp [RingBuffer.contents]

theorem RingBuffer.contents_new (C : ℕ) : (RingBuffer.new C).contents = [] := by
  simp [RingBuffer.contents, RingBuffer.new]

/-! ### Technical lemmas about the store loop and circular indexing -/

theorem mod_add_inj (C r x y : ℕ) (hx : x < C) (hy : y < C)
    (h : (r + x) % C = (r + y) % C) : x = y := by
  have h2 : x % C = y % C := Nat.ModEq.add_left_cancel' r h
  rwa [Nat.mod_eq_of_lt hx, Nat.mod_eq_of_lt hy] at h2

theorem writeLoop_length (l : List ℚ) :
    ∀ buf w C, (writeLoop buf w C l).1.length = buf.length := by
  induction l with
  | nil => intro buf w C; simp [writeLoop]
  | cons s rest ih => intro buf w C; simp [writeLoop, ih]

theorem writeLoop_index (l : List ℚ) :
    ∀ buf w C, 0 < C → w < C → (writeLoop buf w C l).2 = (w + l.length) % C := by
  induction l with
  | nil => intro buf w C hC hw; simp [writeLoop, Nat.mod_eq_of_lt hw]
  | cons s rest ih =>
      intro buf w C hC hw
      rw [writeLoop, ih _ _ _ hC (Nat.mod_lt _ hC), Nat.mod_add_mod]
      congr 1
      simp [List.length_cons]
      omega

theorem writeLoop_getD_untouched (l : List ℚ) :
    ∀ buf w C p, 0 < C → w < C →
      (∀ i, i < l.length → p ≠ (w + i) % C) →
      (writeLoop buf w C l).1.getD p 0 = buf.getD p 0 := by
  induction l with
  | nil => intro buf w C p _ _ _; rfl
  | cons s rest ih =>
      intro buf w C p hC hw hp
      have hpw : p ≠ w := by
        have := hp 0 (by simp)
        simpa [Nat.mod_eq_of_lt hw] using this
      rw [writeLoop, ih _ _ _ _ hC (Nat.mod_lt _ hC)]
      · rw [List.getD_eq_getElem?_getD, List.getD_eq_getElem?_getD,
          List.getElem?_set_ne (Ne.symm hpw)]
      · intro j hj
        have := hp (j + 1) (by simpa using Nat.succ_lt_succ hj)
        rwa [show w + (j + 1) = w + 1 + j by omega, ← Nat.mod_add_mod] at this

theorem writeLoop_getD_written (l : List ℚ) :
    ∀ buf w C i, 0 < C → w < C → buf.length = C → l.length ≤ C → i < l.length →
      (writeLoop buf w C l).1.getD ((w + i) % C) 0 = l.getD i 0 := by
  induction l with
  | nil => intro buf w C i _ _ _ _ hi; simp at hi
  | cons s rest ih =>
      intro buf w C i hC hw hbuf hlen hi
      match i with
      | 0 =>
          rw [show (w + 0) % C = w by simp [Nat.mod_eq_of_lt hw]]
          rw [writeLoop, writeLoop_getD_untouched rest _ _ _ _ hC (Nat.mod_lt _ hC)]
          · rw [List.getD_eq_getElem?_getD, List.getElem?_set_self (by omega)]
            rfl
          · intro j hj hcontra
            rw [Nat.mod_add_mod, Nat.add_assoc] at hcontra
            have hwc : (w + 0) % C = (w + (1 + j)) % C := by
              rw [Nat.add_zero, Nat.mod_eq_of_lt hw]
              exact hcontra
            have h0 : (0 : ℕ) = 1 + j := by
              refine mod_add_inj C w 0 (1 + j) hC ?_ hwc
              simp at hlen
              omega
            omega
      | i + 1 =>
          rw [show (w + (i + 1)) % C = ((w + 1) % C + i) % C by
            rw [Nat.mod_add_mod]; congr 1; omega]
          rw [writeLoop]
          rw [ih _ _ _ _ hC (Nat.mod_lt _ hC) (by simpa using hbuf)
            (by simp at hlen; omega) (by simpa using hi)]
          rfl

theorem getD_range_map_self (l : List ℚ) :
    (List.range l.length).map (fun j => l.getD j 0) = l := by
  apply List.ext_getElem (by simp)
  intro i h1 h2
  simp [List.getD_eq_getElem?_getD, List.getElem?_eq_getElem h2]

theorem contents_shift (buf : List ℚ) (r C a t : ℕ) (ht : t ≤ a) :
    (List.range (a - t)).map (fun i => buf.getD (((r + t) % C + i) % C) 0) =
      ((List.range a).map (fun i => buf.getD ((r + i) % C) 0)).drop t := by
  have h1 : List.range a = List.range t ++ (List.range (a - t)).map (t + ·) := by
    rw [← List.range_add t (a - t)]
    congr 1
    omega
  rw [h1, List.map_append, List.drop_append_eq_append_drop,
    List.drop_of_length_le (by simp),
    show t - ((List.range t).map (fun i => buf.getD ((r + i) % C) 0)).length = 0 by simp,
    List.drop_zero, List.nil_append, List.map_map]
  apply List.map_congr_left
  intro i _
  simp only [Function.comp]
  rw [Nat.mod_add_mod, Nat.add_assoc]

theorem store_stage (buf : List ℚ) (r a C : ℕ) (l' : List ℚ)
    (hC : 0 < C) (hbuf : buf.length = C) (ha : a + l'.length ≤ C) :
    (List.range (a + l'.length)).map
        (fun i => (writeLoop buf ((r + a) % C) C l').1.getD ((r + i) % C) 0) =
      (List.range a).map (fun i => buf.getD ((r + i) % C) 0) ++ l' := by
  rw [List.range_add a l'.length, List.map_append]
  congr 1
  · apply List.map_congr_left
    intro i hi
    have hi' : i < a := List.mem_range.mp hi
    refine writeLoop_getD_untouched l' buf ((r + a) % C) C ((r + i) % C) hC
      (Nat.mod_lt _ hC) ?_
    intro j hj hcontra
    rw [Nat.mod_add_mod, Nat.add_assoc] at hcontra
    have : i = a + j := mod_add_inj C r i (a + j) (by omega) (by omega) hcontra
    omega
  · rw [List.map_map]
    have hcong : ∀ j ∈ List.range l'.length,
        ((fun i => (writeLoop buf ((r + a) % C) C l').1.getD ((r + i) % C) 0) ∘
          (a + ·)) j = l'.getD j 0 := by
      intro j hj
      have hj' : j < l'.length := List.mem_range.mp hj
      simp only [Function.comp]
      rw [show (r + (a + j)) % C = ((r + a) % C + j) % C by
        rw [Nat.mod_add_mod, Nat.add_assoc]]
      exact writeLoop_getD_written l' buf _ C j hC (Nat.mod_lt _ hC) hbuf (by omega) hj'
    rw [List.map_congr_left hcong, getD_range_map_self]

theorem RingBuffer.read_spec (rb : RingBuffer) (h : rb.WF) (n : ℕ) :
    (rb.read n).1 = rb.contents.take n ∧
    (rb.read n).2.contents = rb.contents.drop n ∧
    (rb.read n).2.WF ∧
    (rb.read n).2.capacity = rb.capacity ∧
    (rb.read n).2.available = rb.available - min n rb.available := by
  have hC := h.cap_pos
  have ha := h.avail_le
  have hr := h.ridx_lt
  by_cases ht : min n rb.available = 0
  · have hread : rb.read n = ([], rb) := by
      rw [RingBuffer.read]
      simp [ht]
    rw [hread]
    rcases Nat.min_eq_zero_iff.mp ht with hn | h0
    · subst hn
      refine ⟨by simp, by simp, h, rfl, ?_⟩
      show rb.available = rb.available - min 0 rb.available
      simp
    · have hc : rb.contents = [] := by simp [RingBuffer.contents, h0]
      refine ⟨by simp [hc], by simp [hc], h, rfl, ?_⟩
      show rb.available = rb.available - min n rb.available
      omega
  · have htle : min n rb.available ≤ rb.available := Nat.min_le_right _ _
    have hread : rb.read n = ((List.range (min n rb.available)).map
        (fun i => rb.buffer.getD ((rb.read_index + i) % rb.capacity) 0),
      { rb with read_index := (rb.read_index + min n rb.available) % rb.capacity
                available := rb.available - min n rb.available }) := by
      rw [RingBuffer.read]
      simp [ht]
    rw [hread]
    refine ⟨?_, ?_, ?_, rfl, rfl⟩
    · rw [RingBuffer.contents, ← List.map_take, List.take_range]
    · rw [RingBuffer.contents]
      show (List.range (rb.available - min n rb.available)).map _ = _
      rw [contents_shift rb.buffer rb.read_index rb.capacity rb.available
        (min n rb.available) htle]
      rcases Nat.le_total n rb.available with hna | hna
      · rw [Nat.min_eq_left hna, RingBuffer.contents]
      · rw [Nat.min_eq_right hna, RingBuffer.contents,
          List.drop_of_length_le (by simp),
          List.drop_of_length_le (l := (List.range rb.available).map _) (by simp; omega)]
    · refine ⟨hC, h.buf_len, ?_, ?_, h.widx_lt, ?_⟩
      · show rb.available - min n rb.available ≤ rb.capacity
        omega
      · show (rb.read_index + min n rb.available) % rb.capacity < rb.capacity
        exact Nat.mod_lt _ hC
      · show rb.write_index = ((rb.read_index + min n rb.available) % rb.capacity +
          (rb.available - min n rb.available)) % rb.capacity
        rw [h.widx_eq, Nat.mod_add_mod]
        congr 1
        omega

theorem write_branch (rb : RingBuffer) (h : rb.WF) (l l' : List ℚ)
    (hl' : l'.length ≤ rb.capacity)
    (heq : rb.write l =
      { buffer := (writeLoop rb.buffer rb.write_index rb.capacity l').1
        write_index := (writeLoop rb.buffer rb.write_index rb.capacity l').2
        read_index :=
          (rb.read_index + (rb.available + l'.length - rb.capacity)) % rb.capacity
        available :=
          rb.available - (rb.available + l'.length - rb.capacity) + l'.length
        capacity := rb.capacity }) :
    (rb.write l).contents =
        rb.contents.drop (rb.available + l'.length - rb.capacity) ++ l' ∧
    (rb.write l).WF ∧
    (rb.write l).capacity = rb.capacity ∧
    (rb.write l).available =
        rb.available - (rb.available + l'.length - rb.capacity) + l'.length := by
  have hC := h.cap_pos
  have hbuf := h.buf_len
  have ha := h.avail_le
  have hr := h.ridx_lt
  have hweq := h.widx_eq
  have hova : rb.available + l'.length - rb.capacity ≤ rb.available := by omega
  have hwstart : rb.write_index =
      ((rb.read_index + (rb.available + l'.length - rb.capacity)) % rb.capacity +
        (rb.available - (rb.available + l'.length - rb.capacity))) % rb.capacity := by
    rw [Nat.mod_add_mod, hweq]
    congr 1
    omega
  refine ⟨?_, ?_, ?_, ?_⟩
  · rw [heq, RingBuffer.contents]
    show (List.range
        (rb.available - (rb.available + l'.length - rb.capacity) + l'.length)).map _ = _
    rw [hwstart,
      store_stage rb.buffer
        ((rb.read_index + (rb.available + l'.length - rb.capacity)) % rb.capacity)
        (rb.available - (rb.available + l'.length - rb.capacity)) rb.capacity l'
        hC hbuf (by omega),
      contents_shift rb.buffer rb.read_index rb.capacity rb.available
        (rb.available + l'.length - rb.capacity) hova]
    rw [RingBuffer.contents]
  · rw [heq]
    refine ⟨hC, ?_, ?_, ?_, ?_, ?_⟩
    · show (writeLoop rb.buffer rb.write_index rb.capacity l').1.length = rb.capacity
      rw [writeLoop_length, hbuf]
    · show rb.available - (rb.available + l'.length - rb.capacity) + l'.length ≤
        rb.capacity
      omega
    · show (rb.read_index + (rb.available + l'.length - rb.capacity)) % rb.capacity <
        rb.capacity
      exact Nat.mod_lt _ hC
    · show (writeLoop rb.buffer rb.write_index rb.capacity l').2 < rb.capacity
      rw [writeLoop_index l' _ _ _ hC h.widx_lt]
      exact Nat.mod_lt _ hC
    · show (writeLoop rb.buffer rb.write_index rb.capacity l').2 =
        ((rb.read_index + (rb.available + l'.length - rb.capacity)) % rb.capacity +
          (rb.available - (rb.available + l'.length - rb.capacity) + l'.length)) %
            rb.capacity
      rw [writeLoop_index l' _ _ _ hC h.widx_lt, hweq, Nat.mod_add_mod, Nat.mod_add_mod]
      congr 1
      omega
  · rw [heq]
  · rw [heq]

theorem RingBuffer.write_spec (rb : RingBuffer) (h : rb.WF) (l : List ℚ) :
    (rb.write l).contents =
        (rb.contents ++ l).drop (rb.available + l.length - rb.capacity) ∧
    (rb.write l).WF ∧
    (rb.write l).capacity = rb.capacity ∧
    (rb.write l).available = min (rb.available + l.length) rb.capacity := by
  have hC := h.cap_pos
  have ha := h.avail_le
  have hr := h.ridx_lt
  have hcl := rb.contents_length
  by_cases hemp : l = []
  · subst hemp
    have hid : rb.write [] = rb := by simp [RingBuffer.write]
    rw [hid]
    refine ⟨?_, h, rfl, by simp; omega⟩
    rw [List.append_nil,
      show rb.available + List.length ([] : List ℚ) - rb.capacity = 0 by
        simp only [List.length_nil]
        omega,
      List.drop_zero]
  · by_cases htr : l.length > rb.capacity
    · have hld : (l.drop (l.length - rb.capacity)).length = rb.capacity := by
        rw [List.length_drop]
        omega
      have heq : rb.write l =
          { buffer := (writeLoop rb.buffer rb.write_index rb.capacity
              (l.drop (l.length - rb.capacity))).1
            write_index := (writeLoop rb.buffer rb.write_index rb.capacity
              (l.drop (l.length - rb.capacity))).2
            read_index := (rb.read_index +
              (rb.available + (l.drop (l.length - rb.capacity)).length - rb.capacity)) %
                rb.capacity
            available := rb.available -
              (rb.available + (l.drop (l.length - rb.capacity)).length - rb.capacity) +
                (l.drop (l.length - rb.capacity)).length
            capacity := rb.capacity } := by
        by_cases hcond : rb.capacity < rb.available + (l.length - (l.length - rb.capacity))
        · simp [RingBuffer.write, List.isEmpty_iff, hemp, htr, hcond]
        · have hov0 : rb.available + (l.length - (l.length - rb.capacity)) -
              rb.capacity = 0 := by omega
          simp [RingBuffer.write, List.isEmpty_iff, hemp, htr, hcond, hov0,
            Nat.mod_eq_of_lt hr]
      obtain ⟨hc1, hc2, hc3, hc4⟩ :=
        write_branch rb h l (l.drop (l.length - rb.capacity)) (by rw [hld]) heq
      refine ⟨?_, hc2, hc3, ?_⟩
      · have hrhs : (rb.contents ++ l).drop (rb.available + l.length - rb.capacity) =
            l.drop (l.length - rb.capacity) := by
          rw [List.drop_append_eq_append_drop,
            List.drop_of_length_le (l := rb.contents) (by rw [hcl]; omega),
            List.nil_append, hcl]
          congr 1
          omega
        have hlhs : rb.contents.drop
            (rb.available + (l.drop (l.length - rb.capacity)).length - rb.capacity) =
              [] := by
          apply List.drop_of_length_le
          rw [hcl, hld]
          omega
        rw [hc1, hlhs, List.nil_append, hrhs]
      · rw [hc4, hld]
        omega
    · have heq : rb.write l =
          { buffer := (writeLoop rb.buffer rb.write_index rb.capacity l).1
            write_index := (writeLoop rb.buffer rb.write_index rb.capacity l).2
            read_index := (rb.read_index +
              (rb.available + l.length - rb.capacity)) % rb.capacity
            available := rb.available - (rb.available + l.length - rb.capacity) + l.length
            capacity := rb.capacity } := by
        by_cases hcond : rb.capacity < rb.available + l.length
        · simp [RingBuffer.write, List.isEmpty_iff, hemp, htr, hcond]
        · have hov0 : rb.available + l.length - rb.capacity = 0 := by omega
          simp [RingBuffer.write, List.isEmpty_iff, hemp, htr, hcond, hov0,
            Nat.mod_eq_of_lt hr]
      obtain ⟨hc1, hc2, hc3, hc4⟩ := write_branch rb h l l (by omega) heq
      refine ⟨?_, hc2, hc3, ?_⟩
      · rw [hc1, List.drop_append_eq_append_drop, hcl,
          show rb.available + l.length - rb.capacity - rb.available = 0 by omega,
          List.drop_zero]
      · rw [hc4]
        omega

/-! ### Sequences of ring-buffer operations -/

/-- A client operation on a ring buffer (the API used by the session). -/
inductive RBOp where
  | write (samples : List ℚ)
  | read (count : ℕ)
deriving Repr, DecidableEq

/-- Run a sequence of operations; the final buffer together with the
concatenation of all samples returned by reads. -/
def runOps : RingBuffer → List RBOp → RingBuffer × List ℚ
  | rb, [] => (rb, [])
  | rb, RBOp.write l :: rest => runOps (rb.write l) rest
  | rb, RBOp.read n :: rest =>
      let p := rb.read n
      let q := runOps p.2 rest
      (q.1, p.1 ++ q.2)

/-- Concatenation of all samples passed to writes, in order. -/
def writesConcat : List RBOp → List ℚ
  | [] => []
  | RBOp.write l :: rest => l ++ writesConcat rest
  | RBOp.read _ :: rest => writesConcat rest

/-- No write ever overflows: at each write, the buffered count plus the
incoming length stays within capacity. -/
def NoOverflow : RingBuffer → List RBOp → Prop
  | _, [] => True
  | rb, RBOp.write l :: rest =>
      rb.available + l.length ≤ rb.capacity ∧ NoOverflow (rb.write l) rest
  | rb, RBOp.read n :: rest => NoOverflow (rb.read n).2 rest

def NoOverflow.dec : ∀ (rb : RingBuffer) (ops : List RBOp), Decidable (NoOverflow rb ops)
  | _, [] => .isTrue trivial
  | rb, RBOp.write l :: rest =>
      haveI := NoOverflow.dec (rb.write l) rest
      inferInstanceAs (Decidable (_ ∧ _))
  | rb, RBOp.read n :: rest => NoOverflow.dec (rb.read n).2 rest

instance (rb : RingBuffer) (ops : List RBOp) : Decidable (NoOverflow rb ops) :=
  NoOverflow.dec rb ops

/-- The last `n` elements of a list. -/
def lastN (l : List ℚ) (n : ℕ) : List ℚ := l.drop (l.length - n)

theorem lastN_drop_append (X W : List ℚ) (d k : ℕ) (hd : d ≤ X.length)
    (hk : k ≤ X.length - d + W.length) :
    lastN (X.drop d ++ W) k = lastN (X ++ W) k := by
  unfold lastN
  rw [List.drop_append_eq_append_drop, List.drop_append_eq_append_drop, List.drop_drop]
  have h1 : (X.drop d ++ W).length = X.length - d + W.length := by
    simp
  have h2 : (X ++ W).length = X.length + W.length := by simp
  rw [h1, h2, List.length_drop]
  congr 1
  · congr 1
    omega
  · congr 1
    omega

theorem runOps_spec (ops : List RBOp) :
    ∀ rb : RingBuffer, rb.WF →
      (runOps rb ops).1.WF ∧
      (runOps rb ops).1.capacity = rb.capacity ∧
      (runOps rb ops).1.available ≤ rb.available + (writesConcat ops).length ∧
      (runOps rb ops).1.contents =
        lastN (rb.contents ++ writesConcat ops) (runOps rb ops).1.available ∧
      ((runOps rb ops).2 ++ (runOps rb ops).1.contents).Sublist
        (rb.contents ++ writesConcat ops) ∧
      (NoOverflow rb ops →
        (runOps rb ops).2 ++ (runOps rb ops).1.contents =
          rb.contents ++ writesConcat ops) := by
  induction ops with
  | nil =>
      intro rb h
      refine ⟨h, rfl, by simp [runOps, writesConcat], ?_, ?_, ?_⟩
      · show rb.contents = lastN (rb.contents ++ writesConcat []) rb.available
        rw [writesConcat, List.append_nil, lastN, rb.contents_length, Nat.sub_self,
          List.drop_zero]
      · show ([] ++ rb.contents).Sublist (rb.contents ++ writesConcat [])
        simp [writesConcat]
      · intro _
        show [] ++ rb.contents = rb.contents ++ writesConcat []
        simp [writesConcat]
  | cons op rest ih =>
      intro rb h
      cases op with
      | write l =>
          obtain ⟨hw1, hw2, hw3, hw4⟩ := rb.write_spec h l
          obtain ⟨ih1, ih2, ih3, ih4, ih5, ih6⟩ := ih (rb.write l) hw2
          have hcl := rb.contents_length
          have hXd : rb.available + l.length - rb.capacity ≤
              (rb.contents ++ l).length := by
            simp only [List.length_append, hcl]
            omega
          have hXlen : (rb.contents ++ l).length -
                (rb.available + l.length - rb.capacity) = (rb.write l).available := by
            simp only [List.length_append, hcl, hw4]
            omega
          refine ⟨ih1, ih2.trans hw3, ?_, ?_, ?_, ?_⟩
          · show (runOps (rb.write l) rest).1.available ≤
              rb.available + (writesConcat (RBOp.write l :: rest)).length
            rw [writesConcat, List.length_append]
            have := hw2.avail_le
            omega
          · show (runOps (rb.write l) rest).1.contents =
              lastN (rb.contents ++ writesConcat (RBOp.write l :: rest))
                (runOps (rb.write l) rest).1.available
            rw [ih4, hw1, writesConcat,
              lastN_drop_append (rb.contents ++ l) (writesConcat rest) _ _ hXd
                (by rw [hXlen]; exact ih3),
              List.append_assoc]
          · show ((runOps (rb.write l) rest).2 ++
                (runOps (rb.write l) rest).1.contents).Sublist
              (rb.contents ++ writesConcat (RBOp.write l :: rest))
            rw [writesConcat, ← List.append_assoc]
            refine ih5.trans ?_
            rw [hw1]
            exact (List.drop_sublist _ _).append_right _
          · intro hno
            obtain ⟨hno1, hno2⟩ := hno
            show (runOps (rb.write l) rest).2 ++
                (runOps (rb.write l) rest).1.contents =
              rb.contents ++ writesConcat (RBOp.write l :: rest)
            rw [ih6 hno2, hw1, writesConcat, ← List.append_assoc,
              show rb.available + l.length - rb.capacity = 0 by omega, List.drop_zero]
      | read n =>
          obtain ⟨hr1, hr2, hr3, hr4, hr5⟩ := rb.read_spec h n
          obtain ⟨ih1, ih2, ih3, ih4, ih5, ih6⟩ := ih (rb.read n).2 hr3
          have hcl := rb.contents_length
          have hdropmin : rb.contents.drop n = rb.contents.drop (min n rb.available) := by
            rcases Nat.le_total n rb.available with hna | hna
            · rw [Nat.min_eq_left hna]
            · rw [Nat.min_eq_right hna, List.drop_of_length_le (by omega),
                List.drop_of_length_le (by omega)]
          have hrun : runOps rb (RBOp.read n :: rest) =
              ((runOps (rb.read n).2 rest).1,
                (rb.read n).1 ++ (runOps (rb.read n).2 rest).2) := rfl
          rw [hrun]
          refine ⟨ih1, ih2.trans hr4, ?_, ?_, ?_, ?_⟩
          · show (runOps (rb.read n).2 rest).1.available ≤
              rb.available + (writesConcat (RBOp.read n :: rest)).length
            rw [writesConcat]
            have := hr5
            omega
          · show (runOps (rb.read n).2 rest).1.contents =
              lastN (rb.contents ++ writesConcat (RBOp.read n :: rest))
                (runOps (rb.read n).2 rest).1.available
            rw [ih4, hr2, writesConcat, hdropmin,
              lastN_drop_append rb.contents (writesConcat rest) _ _ (by omega)
                (by rw [hcl, ← hr5]; exact ih3)]
          · show ((rb.read n).1 ++ (runOps (rb.read n).2 rest).2 ++
                (runOps (rb.read n).2 rest).1.contents).Sublist
              (rb.contents ++ writesConcat (RBOp.read n :: rest))
            rw [writesConcat, hr1, List.append_assoc]
            have step : ((runOps (rb.read n).2 rest).2 ++
                (runOps (rb.read n).2 rest).1.contents).Sublist
                (rb.contents.drop n ++ writesConcat rest) := by
              rw [← hr2]
              exact ih5
            have := step.append_left (rb.contents.take n)
            refine this.trans ?_
            rw [← List.append_assoc, List.take_append_drop]
          · intro hno
            show (rb.read n).1 ++ (runOps (rb.read n).2 rest).2 ++
                (runOps (rb.read n).2 rest).1.contents =
              rb.contents ++ writesConcat (RBOp.read n :: rest)
            rw [writesConcat, hr1, List.append_assoc, ih6 hno, hr2,
              ← List.append_assoc, List.take_append_drop]

/-- The ring-buffer API including `reset` (used for the invariant claim). -/
inductive RBCall where
  | write (samples : List ℚ)
  | read (count : ℕ)
  | reset
deriving Repr, DecidableEq

def RingBuffer.apply : RingBuffer → RBCall → RingBuffer
  | rb, RBCall.write l => rb.write l
  | rb, RBCall.read n => (rb.read n).2
  | rb, RBCall.reset => rb.reset

theorem RingBuffer.wf_reset (rb : RingBuffer) (h : rb.WF) : rb.reset.WF := by
  refine ⟨h.cap_pos, h.buf_len, ?_, ?_, ?_, ?_⟩ <;>
    simp [RingBuffer.reset, h.cap_pos]

theorem foldl_apply_wf (calls : List RBCall) :
    ∀ rb : RingBuffer, rb.WF →
      (calls.foldl RingBuffer.apply rb).WF ∧
      (calls.foldl RingBuffer.apply rb).capacity = rb.capacity := by
  induction calls with
  | nil => intro rb h; exact ⟨h, rfl⟩
  | cons c rest ih =>
      intro rb h
      have hstep : (rb.apply c).WF ∧ (rb.apply c).capacity = rb.capacity := by
        cases c with
        | write l =>
            obtain ⟨_, h2, h3, _⟩ := rb.write_spec h l
            exact ⟨h2, h3⟩
        | read n =>
            obtain ⟨_, _, h3, h4, _⟩ := rb.read_spec h n
            exact ⟨h3, h4⟩
        | reset => exact ⟨rb.wf_reset h, rfl⟩
      obtain ⟨ihw, ihc⟩ := ih (rb.apply c) hstep.1
      exact ⟨ihw, ihc.trans hstep.2⟩

/-! ### Validation of the embedding against the unit tests in
`ring_buffer.rs` (`basic_write_read`, `overflow_drops_oldest`,
`write_larger_than_capacity`, `wraparound`, `reset_clears_buffer`). -/

example : (runOps (RingBuffer.new 10) [RBOp.write [1, 2, 3], RBOp.read 3]).2 =
    [1, 2, 3] := by decide

example : (runOps (RingBuffer.new 4)
    [RBOp.write [1, 2, 3, 4], RBOp.write [5, 6], RBOp.read 4]).2 =
    [3, 4, 5, 6] := by decide

example : (runOps (RingBuffer.new 3) [RBOp.write [1, 2, 3, 4, 5]]).1.contents =
    [3, 4, 5] := by decide

example : (runOps (RingBuffer.new 4)
    [RBOp.write [1, 2, 3], RBOp.read 2, RBOp.write [4, 5, 6]]).1.contents =
    [3, 4, 5, 6] := by decide

example : ((RingBuffer.new 10).write [1, 2, 3]).reset.count = 0 := by decide

/-! ### Claim C2 -/

/-- Claim C2, counterexample to the drop-oldest accounting as stated.  With
capacity `C = 2` and the operation sequence `write [1,2,3,4]; read 1`, total
written (4) exceeds `C +` total read (3), but the read sequence is not missing
exactly the oldest `4 − 2 − 1 = 1` written samples: the reads so far together
with the remaining buffered samples are `[3, 4]`, not `[2, 3, 4]`, and the
number of permanently dropped samples is `2`, not `1`. -/
theorem ringBuffer_drop_oldest_count_counterexample :
    (writesConcat [RBOp.write [1, 2, 3, 4], RBOp.read 1]).length >
        2 + (runOps (RingBuffer.new 2) [RBOp.write [1, 2, 3, 4], RBOp.read 1]).2.length ∧
    (runOps (RingBuffer.new 2) [RBOp.write [1, 2, 3, 4], RBOp.read 1]).2 ++
        (runOps (RingBuffer.new 2) [RBOp.write [1, 2, 3, 4], RBOp.read 1]).1.contents ≠
      (writesConcat [RBOp.write [1, 2, 3, 4], RBOp.read 1]).drop
        ((writesConcat [RBOp.write [1, 2, 3, 4], RBOp.read 1]).length - 2 -
          (runOps (RingBuffer.new 2) [RBOp.write [1, 2, 3, 4], RBOp.read 1]).2.length) ∧
    (writesConcat [RBOp.write [1, 2, 3, 4], RBOp.read 1]).length -
        (runOps (RingBuffer.new 2) [RBOp.write [1, 2, 3, 4], RBOp.read 1]).2.length -
        (runOps (RingBuffer.new 2) [RBOp.write [1, 2, 3, 4], RBOp.read 1]).1.count ≠
      (writesConcat [RBOp.write [1, 2, 3, 4], RBOp.read 1]).length - 2 -
        (runOps (RingBuffer.new 2) [RBOp.write [1, 2, 3, 4], RBOp.read 1]).2.length := by
  decide

/-- Claim C2 (amended): for every ring buffer of positive capacity `C` and
every sequence of writes and reads, (i) the buffered samples are always
exactly the last `count` samples written; (ii) the reads followed by the
residual buffer form an in-order subsequence of the writes, so reads are
FIFO; (iii) as long as no write overflows, the reads followed by the residual
buffer equal the writes exactly (reads are a prefix of the write stream); and
(iv) a single write of at least `C` samples keeps exactly the last `C`
samples of that write — the permanently dropped samples are the oldest
unread ones, numbering `total_written − total_read − count` (which equals
`total_written − C − total_read` whenever the buffer is full). -/
theorem ringBuffer_fifo_and_drop_oldest (C : ℕ) (hC : 0 < C) (ops : List RBOp) :
    (runOps (RingBuffer.new C) ops).1.contents =
        lastN (writesConcat ops) (runOps (RingBuffer.new C) ops).1.available ∧
    ((runOps (RingBuffer.new C) ops).2 ++
        (runOps (RingBuffer.new C) ops).1.contents).Sublist (writesConcat ops) ∧
    (NoOverflow (RingBuffer.new C) ops →
      (runOps (RingBuffer.new C) ops).2 ++ (runOps (RingBuffer.new C) ops).1.contents =
        writesConcat ops) ∧
    (∀ l : List ℚ, C ≤ l.length →
      ((RingBuffer.new C).write l).contents = lastN l C) := by
  obtain ⟨_, _, _, h4, h5, h6⟩ := runOps_spec ops (RingBuffer.new C) (RingBuffer.wf_new hC)
  rw [RingBuffer.contents_new, List.nil_append] at h4 h5 h6
  refine ⟨h4, h5, h6, ?_⟩
  intro l hl
  obtain ⟨hw1, _, _, _⟩ := (RingBuffer.new C).write_spec (RingBuffer.wf_new hC) l
  rw [hw1, RingBuffer.contents_new, List.nil_append, lastN]
  show l.drop ((RingBuffer.new C).available + l.length - (RingBuffer.new C).capacity) = _
  have hav : (RingBuffer.new C).available = 0 := rfl
  have hcap : (RingBuffer.new C).capacity = C := rfl
  rw [hav, hcap, Nat.zero_add]

/-- Witness for C2 at `C = 2` with the sequence `write [5,7,9]; read 2`:
the write overflows (`[5]` is dropped), the buffer then holds the last two
samples `[7, 9]`, the read returns `[7, 9]` in FIFO order, and
`reads ++ buffer` is a subsequence of the writes. -/
theorem ringBuffer_fifo_and_drop_oldest_witness :
    0 < 2 ∧
    ((runOps (RingBuffer.new 2) [RBOp.write [5, 7, 9], RBOp.read 2]).1.contents =
        lastN (writesConcat [RBOp.write [5, 7, 9], RBOp.read 2])
          (runOps (RingBuffer.new 2) [RBOp.write [5, 7, 9], RBOp.read 2]).1.available ∧
    ((runOps (RingBuffer.new 2) [RBOp.write [5, 7, 9], RBOp.read 2]).2 ++
        (runOps (RingBuffer.new 2) [RBOp.write [5, 7, 9], RBOp.read 2]).1.contents).Sublist
      (writesConcat [RBOp.write [5, 7, 9], RBOp.read 2]) ∧
    (NoOverflow (RingBuffer.new 2) [RBOp.write [5, 7, 9], RBOp.read 2] →
      (runOps (RingBuffer.new 2) [RBOp.write [5, 7, 9], RBOp.read 2]).2 ++
          (runOps (RingBuffer.new 2) [RBOp.write [5, 7, 9], RBOp.read 2]).1.contents =
        writesConcat [RBOp.write [5, 7, 9], RBOp.read 2]) ∧
    (∀ l : List ℚ, 2 ≤ l.length →
      ((RingBuffer.new 2).write l).contents = lastN l 2)) :=
  ⟨by decide, ringBuffer_fifo_and_drop_oldest 2 (by decide) [RBOp.write [5, 7, 9], RBOp.read 2]⟩

/-! ### Claim C7 -/

/-- Claim C7: for every ring buffer created with positive capacity `C`, any
sequence of `write`, `read` and `reset` calls preserves the invariant:
`available ≤ C`, both indices lie in `[0, C)`, and
`write_index = (read_index + available) % C` (the lower bounds `0 ≤ _` are
inherent in `ℕ`). -/
theorem ringBuffer_invariant_preserved (C : ℕ) (hC : 0 < C) (calls : List RBCall) :
    (calls.foldl RingBuffer.apply (RingBuffer.new C)).available ≤ C ∧
    (calls.foldl RingBuffer.apply (RingBuffer.new C)).read_index < C ∧
    (calls.foldl RingBuffer.apply (RingBuffer.new C)).write_index < C ∧
    (calls.foldl RingBuffer.apply (RingBuffer.new C)).write_index =
      ((calls.foldl RingBuffer.apply (RingBuffer.new C)).read_index +
        (calls.foldl RingBuffer.apply (RingBuffer.new C)).available) %
          (calls.foldl RingBuffer.apply (RingBuffer.new C)).capacity ∧
    (calls.foldl RingBuffer.apply (RingBuffer.new C)).capacity = C := by
  obtain ⟨hwf, hcap⟩ := foldl_apply_wf calls (RingBuffer.new C) (RingBuffer.wf_new hC)
  have hc : (RingBuffer.new C).capacity = C := rfl
  rw [hc] at hcap
  exact ⟨le_of_le_of_eq hwf.avail_le hcap, lt_of_lt_of_eq hwf.ridx_lt hcap,
    lt_of_lt_of_eq hwf.widx_lt hcap, hwf.widx_eq, hcap⟩

/-- Witness for C7 at `C = 3` with a mixed call sequence exercising write,
overflow, read and reset. -/
theorem ringBuffer_invariant_preserved_witness :
    0 < 3 ∧
    (([RBCall.write [1, 2], RBCall.read 1, RBCall.write [3, 4, 5], RBCall.reset,
        RBCall.write [6]].foldl RingBuffer.apply (RingBuffer.new 3)).available ≤ 3 ∧
    ([RBCall.write [1, 2], RBCall.read 1, RBCall.write [3, 4, 5], RBCall.reset,
        RBCall.write [6]].foldl RingBuffer.apply (RingBuffer.new 3)).read_index < 3 ∧
    ([RBCall.write [1, 2], RBCall.read 1, RBCall.write [3, 4, 5], RBCall.reset,
        RBCall.write [6]].foldl RingBuffer.apply (RingBuffer.new 3)).write_index < 3 ∧
    ([RBCall.write [1, 2], RBCall.read 1, RBCall.write [3, 4, 5], RBCall.reset,
        RBCall.write [6]].foldl RingBuffer.apply (RingBuffer.new 3)).write_index =
      (([RBCall.write [1, 2], RBCall.read 1, RBCall.write [3, 4, 5], RBCall.reset,
        RBCall.write [6]].foldl RingBuffer.apply (RingBuffer.new 3)).read_index +
        ([RBCall.write [1, 2], RBCall.read 1, RBCall.write [3, 4, 5], RBCall.reset,
        RBCall.write [6]].foldl RingBuffer.apply (RingBuffer.new 3)).available) %
          ([RBCall.write [1, 2], RBCall.read 1, RBCall.write [3, 4, 5], RBCall.reset,
        RBCall.write [6]].foldl RingBuffer.apply (RingBuffer.new 3)).capacity ∧
    ([RBCall.write [1, 2], RBCall.read 1, RBCall.write [3, 4, 5], RBCall.reset,
        RBCall.write [6]].foldl RingBuffer.apply (RingBuffer.new 3)).capacity = 3) :=
  ⟨by decide, ringBuffer_invariant_preserved 3 (by decide)
    [RBCall.write [1, 2], RBCall.read 1, RBCall.write [3, 4, 5], RBCall.reset,
      RBCall.write [6]]⟩

/-! ## Stereo mixer (`processing/stereo_mixer.rs`)

The mixer is stateless apart from `target_sample_rate`; `f32`/`f64` values
are modelled as exact rationals. -/

namespace StereoMixer

/-- `StereoMixer::mix_mic_with_stereo_system`: mix mono mic audio with
interleaved stereo system audio; missing samples are silence. -/
def mix_mic_with_stereo_system (mic system : List ℚ) : List ℚ :=
  let mic_frames := mic.length
  let system_frames := system.length / 2
  let frame_count := max mic_frames system_frames
  if frame_count = 0 then []
  else
    (List.range frame_count).flatMap (fun i =>
      let mic_sample := if i < mic_frames then mic.getD i 0 else 0
      let sys_l := if i * 2 < system.length then system.getD (i * 2) 0 else 0
      let sys_r := if i * 2 + 1 < system.length then system.getD (i * 2 + 1) 0 else 0
      [mic_sample + sys_l, mic_sample + sys_r])

/-- `StereoMixer::interleave`: element-wise interleave of two mono channels,
zero-padding the shorter. -/
def interleave (left right : List ℚ) : List ℚ :=
  let frame_count := max left.length right.length
  if frame_count = 0 then []
  else
    (List.range frame_count).flatMap (fun i =>
      [if i < left.length then left.getD i 0 else 0,
       if i < right.length then right.getD i 0 else 0])

/-- Truncation toward zero of a rational: the semantics of Rust's `as i16`
(resp. `as usize`) cast applied to an in-range value. -/
def ratTrunc (q : ℚ) : ℤ := if 0 ≤ q then ⌊q⌋ else ⌈q⌉

/-- Little-endian byte pair of an `i16` value (two's-complement pattern). -/
def i16ToLeBytes (v : ℤ) : List ℕ :=
  [(v % 65536).toNat % 256, (v % 65536).toNat / 256]

/-- `StereoMixer::convert_to_int16_pcm`: clamp each sample to `[-1, 1]`,
scale by `i16::MAX = 32767`, cast to `i16`, emit little-endian bytes. -/
def convert_to_int16_pcm (samples : List ℚ) : List ℕ :=
  samples.flatMap (fun s =>
    let clamped := max (-1) (min 1 s)
    let int16_value := ratTrunc (clamped * 32767)
    i16ToLeBytes int16_value)

/-- `StereoMixer::resample`: linear-interpolation resampling of mono audio
from `source_sample_rate` to `target_sample_rate` (the struct field is the
first argument).  The `as usize` casts truncate, saturating at zero. -/
def resample (target_sample_rate : ℚ) (samples : List ℚ)
    (source_sample_rate : ℚ) : List ℚ :=
  if |source_sample_rate - target_sample_rate| < 1 / 100 ∨ samples.isEmpty then
    samples
  else
    let r := target_sample_rate / source_sample_rate
    let output_count := (⌊(samples.length : ℚ) * r⌋).toNat
    if output_count = 0 then []
    else
      (List.range output_count).map (fun (i : ℕ) =>
        let source_index : ℚ := (i : ℚ) / r
        let index := (⌊source_index⌋).toNat
        let fraction := source_index - (index : ℚ)
        if index + 1 < samples.length then
          samples.getD index 0 * (1 - fraction) + samples.getD (index + 1) 0 * fraction
        else if index < samples.length then
          samples.getD index 0
        else 0)

/-- `StereoMixer::rms_level` squared is the mean square (the square root is
not rational; claims use only `rms` on exact squares, so it is not needed
here); `StereoMixer::peak_level`. -/
def peak_level (samples : List ℚ) : ℚ :=
  (samples.map (fun s => |s|)).foldl max 0

end StereoMixer

/-! ### Lemmas about two-byte/two-sample flat maps -/

theorem flatMap_pair_length {α β : Type} (l : List α) (f g : α → β) :
    (l.flatMap (fun a => [f a, g a])).length = 2 * l.length := by
  induction l with
  | nil => rfl
  | cons a t ih =>
      rw [List.flatMap_cons, List.length_append, ih, List.length_cons]
      simp only [List.length_cons, List.length_nil]
      omega

theorem flatMap_pair_getElem?_even {α β : Type} (l : List α) (f g : α → β) :
    ∀ i, (h : i < l.length) →
      (l.flatMap (fun a => [f a, g a]))[2 * i]? = some (f (l.get ⟨i, h⟩)) := by
  induction l with
  | nil => intro i h; simp at h
  | cons a t ih =>
      intro i h
      match i with
      | 0 => rfl
      | i + 1 =>
          rw [List.flatMap_cons,
            List.getElem?_append_right (by
              simp only [List.length_cons, List.length_nil]
              omega)]
          have h' : i < t.length := by simpa using h
          have := ih i h'
          rw [show 2 * (i + 1) - ([f a, g a] : List β).length = 2 * i by simp; omega,
            this]
          rfl

theorem flatMap_pair_getElem?_odd {α β : Type} (l : List α) (f g : α → β) :
    ∀ i, (h : i < l.length) →
      (l.flatMap (fun a => [f a, g a]))[2 * i + 1]? = some (g (l.get ⟨i, h⟩)) := by
  induction l with
  | nil => intro i h; simp at h
  | cons a t ih =>
      intro i h
      match i with
      | 0 => simp [List.flatMap_cons]
      | i + 1 =>
          rw [List.flatMap_cons,
            List.getElem?_append_right (by
              simp only [List.length_cons, List.length_nil]
              omega)]
          have h' : i < t.length := by simpa using h
          have := ih i h'
          rw [show 2 * (i + 1) + 1 - ([f a, g a] : List β).length = 2 * i + 1 by
            simp; omega, this]
          rfl

theorem map_range_getD (F : ℕ → ℚ) (n i : ℕ) (d : ℚ) (h : i < n) :
    ((List.range n).map F).getD i d = F i := by
  rw [List.getD_eq_getElem?_getD, List.getElem?_map, List.getElem?_range h]
  rfl

theorem mix_entry (mic system : List ℚ) (i : ℕ)
    (h : i < max mic.length (system.length / 2)) :
    (StereoMixer.mix_mic_with_stereo_system mic system).getD (2 * i) 0 =
        mic.getD i 0 + system.getD (2 * i) 0 ∧
    (StereoMixer.mix_mic_with_stereo_system mic system).getD (2 * i + 1) 0 =
        mic.getD i 0 + system.getD (2 * i + 1) 0 := by
  have hfc : ¬ (max mic.length (system.length / 2) = 0) := by omega
  have hi : i < (List.range (max mic.length (system.length / 2))).length := by
    simpa using h
  have hmic : (if i < mic.length then mic.getD i 0 else 0) = mic.getD i 0 := by
    split
    · rfl
    · rw [List.getD_eq_default _ _ (by omega)]
  have hsysl : (if i * 2 < system.length then system.getD (i * 2) 0 else 0) =
      system.getD (2 * i) 0 := by
    rw [Nat.mul_comm i 2]
    split
    · rfl
    · rw [List.getD_eq_default _ _ (by omega)]
  have hsysr : (if i * 2 + 1 < system.length then system.getD (i * 2 + 1) 0 else 0) =
      system.getD (2 * i + 1) 0 := by
    rw [show i * 2 + 1 = 2 * i + 1 by omega]
    split
    · rfl
    · rw [List.getD_eq_default _ _ (by omega)]
  constructor
  · simp only [StereoMixer.mix_mic_with_stereo_system, if_neg hfc]
    rw [List.getD_eq_getElem?_getD, flatMap_pair_getElem?_even _ _ _ i hi,
      Option.getD_some, List.get_eq_getElem, List.getElem_range, hmic, hsysl]
  · simp only [StereoMixer.mix_mic_with_stereo_system, if_neg hfc]
    rw [List.getD_eq_getElem?_getD, flatMap_pair_getElem?_odd _ _ _ i hi,
      Option.getD_some, List.get_eq_getElem, List.getElem_range, hmic, hsysr]

theorem mix_length (mic system : List ℚ) :
    (StereoMixer.mix_mic_with_stereo_system mic system).length =
      2 * max mic.length (system.length / 2) := by
  by_cases hfc : max mic.length (system.length / 2) = 0
  · simp [StereoMixer.mix_mic_with_stereo_system, hfc]
  · simp only [StereoMixer.mix_mic_with_stereo_system, if_neg hfc]
    rw [flatMap_pair_length, List.length_range]

/-! ### Claim C4 -/

/-- Claim C4: `mix_mic_with_stereo_system` returns an interleaved stereo
buffer of `max(mic length, system length / 2)` frames; frame `i` has left
channel `mic[i] + system[2i]` and right channel `mic[i] + system[2i+1]`,
out-of-range samples reading as zero (`getD _ 0`); and the two concrete
examples from the spec hold. -/
theorem mix_mic_with_stereo_system_spec :
    (∀ mic system : List ℚ,
      (StereoMixer.mix_mic_with_stereo_system mic system).length =
        2 * max mic.length (system.length / 2)) ∧
    (∀ mic system : List ℚ, ∀ i, i < max mic.length (system.length / 2) →
      (StereoMixer.mix_mic_with_stereo_system mic system).getD (2 * i) 0 =
          mic.getD i 0 + system.getD (2 * i) 0 ∧
      (StereoMixer.mix_mic_with_stereo_system mic system).getD (2 * i + 1) 0 =
          mic.getD i 0 + system.getD (2 * i + 1) 0) ∧
    StereoMixer.mix_mic_with_stereo_system [0.5, 0.3] [0.1, 0.2, 0.3, 0.4] =
        [0.6, 0.7, 0.6, 0.7] ∧
    StereoMixer.mix_mic_with_stereo_system [0.5, 0.3, 0.1] [0.1, 0.2] =
        [0.6, 0.7, 0.3, 0.3, 0.1, 0.1] := by
  refine ⟨mix_length, mix_entry, ?_, ?_⟩
  · norm_num [StereoMixer.mix_mic_with_stereo_system, List.range_succ]
  · norm_num [StereoMixer.mix_mic_with_stereo_system, List.range_succ]

/-- Witness for C4: the length law and the per-frame law evaluated at frame 1
of the spec's first example. -/
theorem mix_mic_with_stereo_system_spec_witness :
    (StereoMixer.mix_mic_with_stereo_system [0.5, 0.3] [0.1, 0.2, 0.3, 0.4]).length =
        2 * max ([0.5, 0.3] : List ℚ).length (([0.1, 0.2, 0.3, 0.4] : List ℚ).length / 2) ∧
    ((StereoMixer.mix_mic_with_stereo_system [0.5, 0.3] [0.1, 0.2, 0.3, 0.4]).getD
        (2 * 1) 0 =
      ([0.5, 0.3] : List ℚ).getD 1 0 + ([0.1, 0.2, 0.3, 0.4] : List ℚ).getD (2 * 1) 0 ∧
    (StereoMixer.mix_mic_with_stereo_system [0.5, 0.3] [0.1, 0.2, 0.3, 0.4]).getD
        (2 * 1 + 1) 0 =
      ([0.5, 0.3] : List ℚ).getD 1 0 + ([0.1, 0.2, 0.3, 0.4] : List ℚ).getD (2 * 1 + 1) 0) :=
  ⟨mix_mic_with_stereo_system_spec.1 [0.5, 0.3] [0.1, 0.2, 0.3, 0.4],
   mix_mic_with_stereo_system_spec.2.1 [0.5, 0.3] [0.1, 0.2, 0.3, 0.4] 1 (by norm_num)⟩

/-! ### Claim C5 -/

theorem convert_entry (samples : List ℚ) (i : ℕ) (h : i < samples.length) :
    (StereoMixer.convert_to_int16_pcm samples).getD (2 * i) 0 =
        (StereoMixer.ratTrunc (max (-1) (min 1 (samples.getD i 0)) * 32767) %
          65536).toNat % 256 ∧
    (StereoMixer.convert_to_int16_pcm samples).getD (2 * i + 1) 0 =
        (StereoMixer.ratTrunc (max (-1) (min 1 (samples.getD i 0)) * 32767) %
          65536).toNat / 256 := by
  have hget : samples.get ⟨i, h⟩ = samples.getD i 0 := by
    rw [List.get_eq_getElem]
    exact (List.getD_eq_getElem _ _ h).symm
  constructor
  · simp only [StereoMixer.convert_to_int16_pcm, StereoMixer.i16ToLeBytes]
    rw [List.getD_eq_getElem?_getD, flatMap_pair_getElem?_even _ _ _ i h,
      Option.getD_some, hget]
  · simp only [StereoMixer.convert_to_int16_pcm, StereoMixer.i16ToLeBytes]
    rw [List.getD_eq_getElem?_getD, flatMap_pair_getElem?_odd _ _ _ i h,
      Option.getD_some, hget]

theorem ratTrunc_neg_max : StereoMixer.ratTrunc (-32767) = -32767 := by
  rw [StereoMixer.ratTrunc, if_neg (by norm_num),
    show (-32767 : ℚ) = -(32767 : ℚ) by norm_num, Int.ceil_neg]
  norm_num

/-- Claim C5: `convert_to_int16_pcm` emits exactly two bytes per input
sample: the sample clamped to `[-1, 1]`, scaled by `32767`, truncated to
`i16` and written little-endian; `[0, 1, -1]` maps to
`[00 00, FF 7F, 01 80]` (`0`, `+32767`, `-32767`), and every out-of-range
input saturates to `±32767`. -/
theorem convert_to_int16_pcm_spec :
    (∀ samples : List ℚ,
      (StereoMixer.convert_to_int16_pcm samples).length = 2 * samples.length) ∧
    (∀ samples : List ℚ, ∀ i, i < samples.length →
      (StereoMixer.convert_to_int16_pcm samples).getD (2 * i) 0 =
          (StereoMixer.ratTrunc (max (-1) (min 1 (samples.getD i 0)) * 32767) %
            65536).toNat % 256 ∧
      (StereoMixer.convert_to_int16_pcm samples).getD (2 * i + 1) 0 =
          (StereoMixer.ratTrunc (max (-1) (min 1 (samples.getD i 0)) * 32767) %
            65536).toNat / 256) ∧
    StereoMixer.convert_to_int16_pcm [0, 1, -1] =
        [0x00, 0x00, 0xFF, 0x7F, 0x01, 0x80] ∧
    (∀ s : ℚ, 1 ≤ s → StereoMixer.ratTrunc (max (-1) (min 1 s) * 32767) = 32767) ∧
    (∀ s : ℚ, s ≤ -1 → StereoMixer.ratTrunc (max (-1) (min 1 s) * 32767) = -32767) := by
  refine ⟨?_, convert_entry, ?_, ?_, ?_⟩
  · intro samples
    simp only [StereoMixer.convert_to_int16_pcm, StereoMixer.i16ToLeBytes]
    rw [flatMap_pair_length]
  · have e0 : StereoMixer.ratTrunc (max (-1) (min 1 (0 : ℚ)) * 32767) = 0 := by
      rw [show max (-1) (min 1 (0 : ℚ)) * 32767 = 0 by norm_num, StereoMixer.ratTrunc,
        if_pos le_rfl]
      norm_num
    have e1 : StereoMixer.ratTrunc (max (-1) (min 1 (1 : ℚ)) * 32767) = 32767 := by
      rw [show max (-1) (min 1 (1 : ℚ)) * 32767 = 32767 by norm_num, StereoMixer.ratTrunc,
        if_pos (by norm_num)]
      norm_num
    have e2 : StereoMixer.ratTrunc (max (-1) (min 1 (-1 : ℚ)) * 32767) = -32767 := by
      rw [show max (-1) (min 1 (-1 : ℚ)) * 32767 = -32767 by norm_num, ratTrunc_neg_max]
    simp only [StereoMixer.convert_to_int16_pcm, StereoMixer.i16ToLeBytes,
      List.flatMap_cons, List.flatMap_nil, e0, e1, e2]
    norm_num
    decide
  · intro s hs
    rw [min_eq_left hs, max_eq_right (by norm_num : (-1 : ℚ) ≤ 1), one_mul,
      StereoMixer.ratTrunc, if_pos (by norm_num)]
    norm_num
  · intro s hs
    have h1 : min 1 s = s := min_eq_right (by linarith)
    have h2 : max (-1) s = -1 := max_eq_left hs
    rw [h1, h2, show (-1 : ℚ) * 32767 = -32767 by norm_num, ratTrunc_neg_max]

/-- Witness for C5: length and per-sample bytes at sample 0 of `[0.5]`, and
the two saturation laws at `2` and `-3`. -/
theorem convert_to_int16_pcm_spec_witness :
    (StereoMixer.convert_to_int16_pcm [0.5]).length = 2 * ([0.5] : List ℚ).length ∧
    ((StereoMixer.convert_to_int16_pcm [0.5]).getD (2 * 0) 0 =
        (StereoMixer.ratTrunc (max (-1) (min 1 (([0.5] : List ℚ).getD 0 0)) * 32767) %
          65536).toNat % 256 ∧
      (StereoMixer.convert_to_int16_pcm [0.5]).getD (2 * 0 + 1) 0 =
        (StereoMixer.ratTrunc (max (-1) (min 1 (([0.5] : List ℚ).getD 0 0)) * 32767) %
          65536).toNat / 256) ∧
    StereoMixer.ratTrunc (max (-1) (min 1 (2 : ℚ)) * 32767) = 32767 ∧
    StereoMixer.ratTrunc (max (-1) (min 1 (-3 : ℚ)) * 32767) = -32767 :=
  ⟨convert_to_int16_pcm_spec.1 [0.5],
   convert_to_int16_pcm_spec.2.1 [0.5] 0 (by norm_num),
   convert_to_int16_pcm_spec.2.2.2.1 2 (by norm_num),
   convert_to_int16_pcm_spec.2.2.2.2 (-3) (by norm_num)⟩

/-! ### Claim C6 -/

/-- Claim C6: `resample` is the identity when `|source − target| < 0.01`;
otherwise it emits `⌊N·ratio⌋` samples (`ratio = target/source`), output `i`
being the linear interpolation `(1−f)·in[k] + f·in[k+1]` at `s = i/ratio`,
`k = ⌊s⌋`, `f = s − k`, with `in[k]` when `k+1` is out of range and zero
when `k` is; `resample([0,1], 24000 → 48000) = [0, 1/2, 1, 1]` (4 samples,
midpoint `0.5`). -/
theorem resample_spec (target source : ℚ) (samples : List ℚ) :
    (|source - target| < 1 / 100 → StereoMixer.resample target samples source = samples) ∧
    (¬ |source - target| < 1 / 100 →
      (StereoMixer.resample target samples source).length =
          (⌊(samples.length : ℚ) * (target / source)⌋).toNat ∧
      (∀ i, i < (⌊(samples.length : ℚ) * (target / source)⌋).toNat →
        (StereoMixer.resample target samples source).getD i 0 =
          if (⌊(i : ℚ) / (target / source)⌋).toNat + 1 < samples.length then
            samples.getD (⌊(i : ℚ) / (target / source)⌋).toNat 0 *
                (1 - ((i : ℚ) / (target / source) -
                  ((⌊(i : ℚ) / (target / source)⌋).toNat : ℚ))) +
              samples.getD ((⌊(i : ℚ) / (target / source)⌋).toNat + 1) 0 *
                ((i : ℚ) / (target / source) -
                  ((⌊(i : ℚ) / (target / source)⌋).toNat : ℚ))
          else if (⌊(i : ℚ) / (target / source)⌋).toNat < samples.length then
            samples.getD (⌊(i : ℚ) / (target / source)⌋).toNat 0
          else 0)) ∧
    StereoMixer.resample 48000 [0, 1] 24000 = [0, 1/2, 1, 1] := by
  refine ⟨?_, ?_, ?_⟩
  · intro hp
    rw [StereoMixer.resample, if_pos (Or.inl hp)]
  · intro hno
    by_cases hemp : samples.isEmpty
    · have hnil : samples = [] := by simpa [List.isEmpty_iff] using hemp
      subst hnil
      refine ⟨by simp [StereoMixer.resample], ?_⟩
      intro i hi
      norm_num at hi
    · have hcond : ¬ (|source - target| < 1 / 100 ∨ samples.isEmpty = true) :=
        not_or.mpr ⟨hno, by simpa using hemp⟩
      by_cases hoc : (⌊(samples.length : ℚ) * (target / source)⌋).toNat = 0
      · refine ⟨?_, ?_⟩
        · simp only [StereoMixer.resample, if_neg hcond]
          rw [if_pos hoc, hoc]
          rfl
        · intro i hi
          rw [hoc] at hi
          omega
      · refine ⟨?_, ?_⟩
        · simp only [StereoMixer.resample, if_neg hcond]
          rw [if_neg hoc]
          simp
        · intro i hi
          simp only [StereoMixer.resample, if_neg hcond]
          rw [if_neg hoc, map_range_getD _ _ _ _ hi]
  · have hcond : ¬ |(24000 : ℚ) - 48000| < 1 / 100 := by
      rw [show (24000 : ℚ) - 48000 = -24000 by norm_num, abs_neg,
        abs_of_nonneg (by norm_num : (0 : ℚ) ≤ 24000)]
      norm_num
    rw [StereoMixer.resample, if_neg (not_or.mpr ⟨hcond, by simp⟩)]
    norm_num
    rw [show Int.toNat 4 = 4 from rfl]
    norm_num [List.range_succ]

/-- Witness for C6: passthrough at equal rates, and the output length of the
spec's 2-to-4-sample upsampling example. -/
theorem resample_spec_witness :
    StereoMixer.resample 48000 [(3 : ℚ), 4] 48000 = [3, 4] ∧
    (StereoMixer.resample 48000 [(0 : ℚ), 1] 24000).length =
      (⌊((([(0 : ℚ), 1] : List ℚ).length : ℚ)) * (48000 / 24000)⌋).toNat :=
  ⟨(resample_spec 48000 48000 [3, 4]).1 (by norm_num),
   ((resample_spec 48000 24000 [0, 1]).2.1 (by
      rw [show (24000 : ℚ) - 48000 = -24000 by norm_num, abs_neg,
        abs_of_nonneg (by norm_num : (0 : ℚ) ≤ 24000)]
      norm_num)).1⟩

/-! ## Error taxonomy (`models/error.rs`) -/

inductive CaptureError where
  | PermissionDenied
  | DeviceNotAvailable
  | ConfigurationFailed (msg : String)
  | EncodingFailed (msg : String)
  | EncryptionFailed (msg : String)
  | StorageError (msg : String)
  | Timeout
  | Unknown (msg : String)
deriving Repr, DecidableEq

/-! ## Configuration (`models/config.rs`)

The encryptor trait object (`Box<dyn CaptureEncryptor>`) is modelled by its
`encrypt` function; `algorithm`/`key_metadata`/`clone_box` play no role in
the claims. -/

structure CaptureConfiguration where
  sample_rate : ℚ
  bit_depth : ℕ
  channels : ℕ
  encryptor : Option (List ℕ → Except String (List ℕ))
  output_directory : String
  max_duration_secs : Option ℚ
  mic_device_id : Option String
  enable_mic_capture : Bool
  enable_system_capture : Bool

/-- `CaptureConfiguration::validate`. -/
def CaptureConfiguration.validate (c : CaptureConfiguration) : Except String Unit :=
  if c.sample_rate ≤ 0 then Except.error "sample rate must be positive"
  else if ¬ (c.bit_depth = 16 ∨ c.bit_depth = 24 ∨ c.bit_depth = 32) then
    Except.error ("unsupported bit depth: " ++ toString c.bit_depth)
  else if ¬ (c.channels = 1 ∨ c.channels = 2) then
    Except.error ("unsupported channel count: " ++ toString c.channels)
  else Except.ok ()

/-- The `Default` impl for `CaptureConfiguration`. -/
def CaptureConfiguration.default : CaptureConfiguration :=
  { sample_rate := 48000
    bit_depth := 16
    channels := 2
    encryptor := none
    output_directory := "."
    max_duration_secs := none
    mic_device_id := none
    enable_mic_capture := true
    enable_system_capture := true }

/-- Rust's saturating `f64 as u32` cast, on the rational model of `f64`. -/
def f64ToU32 (q : ℚ) : ℕ := min (⌊q⌋.toNat) (2 ^ 32 - 1)

/-! ## WAV header codec (`processing/wav_format.rs`) -/

namespace wav_format

/-- `WAV_HEADER_SIZE`. -/
def WAV_HEADER_SIZE : ℕ := 44

/-- `u32::to_le_bytes`; the argument is reduced `% 2^32` as Rust's `as u32`
casts and wrapping arithmetic do. -/
def le32 (n : ℕ) : List ℕ :=
  [n % 2 ^ 32 % 256, n % 2 ^ 32 / 256 % 256, n % 2 ^ 32 / 2 ^ 16 % 256,
   n % 2 ^ 32 / 2 ^ 24]

/-- `u16::to_le_bytes`. -/
def le16 (n : ℕ) : List ℕ := [n % 2 ^ 16 % 256, n % 2 ^ 16 / 256]

/-- `generate_wav_header`: the 44-byte RIFF/WAVE PCM header.  `byte_rate`
and `block_align` are computed with `u32`/`u16` wrapping multiplication. -/
def generate_wav_header (sample_rate bit_depth channels data_size : ℕ) : List ℕ :=
  [82, 73, 70, 70] ++ le32 (36 + data_size) ++ [87, 65, 86, 69] ++
    [102, 109, 116, 32] ++ le32 16 ++ le16 1 ++ le16 channels ++ le32 sample_rate ++
    le32 (sample_rate * channels * bit_depth % 2 ^ 32 / 8) ++
    le16 (channels * bit_depth % 2 ^ 16 / 8) ++ le16 bit_depth ++
    [100, 97, 116, 97] ++ le32 data_size

theorem generate_wav_header_length (a b c d : ℕ) :
    (generate_wav_header a b c d).length = 44 := by
  simp [generate_wav_header, le32, le16]

end wav_format

/-! ## Streaming writer (`storage/encrypted_writer.rs`)

The file system is modelled by `disk` (the bytes of the on-disk file) and
`hasHandle` (the live `File` handle): `File::create` truncates `disk`;
seek-and-patch at close is `writeAt`.  `file_path`, the SHA-256 checksum
string returned by `close` and I/O failures of the local disk are not
modelled. -/

structure EncryptedFileWriter where
  encryptor : Option (List ℕ → Except String (List ℕ))
  disk : List ℕ
  hasHandle : Bool
  total_bytes_written : ℕ
  is_open : Bool

/-- `EncryptedFileWriter::new` (the `file_path` argument is not modelled). -/
def EncryptedFileWriter.new (encryptor : Option (List ℕ → Except String (List ℕ))) :
    EncryptedFileWriter :=
  { encryptor := encryptor
    disk := []
    hasHandle := false
    total_bytes_written := 0
    is_open := false }

/-- `EncryptedFileWriter::write_raw`. -/
def EncryptedFileWriter.write_raw (w : EncryptedFileWriter) (data : List ℕ) :
    Except CaptureError EncryptedFileWriter :=
  if w.hasHandle then
    Except.ok { w with disk := w.disk ++ data
                       total_bytes_written := w.total_bytes_written + data.length }
  else Except.error (CaptureError.StorageError "file is not open")

/-- `EncryptedFileWriter::open`: create the file (truncating) and write the
placeholder header; a second call on an open writer returns `Ok` and does
nothing. -/
def EncryptedFileWriter.open_file (w : EncryptedFileWriter)
    (config : CaptureConfiguration) : Except CaptureError EncryptedFileWriter :=
  if w.is_open then Except.ok w
  else
    let w1 : EncryptedFileWriter := { w with hasHandle := true, disk := [] }
    let header := wav_format.generate_wav_header (f64ToU32 config.sample_rate)
      config.bit_depth config.channels 0
    match w1.write_raw header with
    | Except.error e => Except.error e
    | Except.ok w2 => Except.ok { w2 with is_open := true }

/-- `EncryptedFileWriter::write`: length-framed sealed chunk with an
encryptor, raw bytes without. -/
def EncryptedFileWriter.write (w : EncryptedFileWriter) (data : List ℕ) :
    Except CaptureError EncryptedFileWriter :=
  if ¬ w.is_open then
    Except.error (CaptureError.StorageError "file is not open for writing")
  else
    match w.encryptor with
    | some enc =>
        match enc data with
        | Except.error e =>
            Except.error (CaptureError.EncryptionFailed
              ("chunk encryption failed: " ++ e))
        | Except.ok encrypted =>
            match w.write_raw (wav_format.le32 encrypted.length) with
            | Except.error e => Except.error e
            | Except.ok w1 =>
                match w1.write_raw encrypted with
                | Except.error e => Except.error e
                | Except.ok w2 => Except.ok w2
    | none => w.write_raw data

/-- In-place patch of `bytes` at byte offset `off` (seek + `write_all`). -/
def writeAt (l : List ℕ) (off : ℕ) (bytes : List ℕ) : List ℕ :=
  l.take off ++ bytes ++ l.drop (off + bytes.length)

/-- `EncryptedFileWriter::close`: patch the RIFF size at offset 4, optionally
the sample rate/byte rate/block align at offsets 24/28/32, and the data size
at offset 40; then drop the handle. -/
def EncryptedFileWriter.close (w : EncryptedFileWriter)
    (actual_sample_rate : Option ℚ) (channels bit_depth : ℕ) :
    Except CaptureError EncryptedFileWriter :=
  if ¬ w.is_open then Except.error (CaptureError.StorageError "file is not open")
  else
    let data_size := w.total_bytes_written - wav_format.WAV_HEADER_SIZE
    let disk1 := writeAt w.disk 4 (wav_format.le32 (w.total_bytes_written - 8))
    let disk2 := match actual_sample_rate with
      | some rate =>
          writeAt disk1 24 (wav_format.le32 (f64ToU32 rate) ++
            wav_format.le32 (f64ToU32 rate * channels * bit_depth % 2 ^ 32 / 8) ++
            wav_format.le16 (channels * bit_depth % 2 ^ 16 / 8))
      | none => disk1
    let disk3 := writeAt disk2 40 (wav_format.le32 data_size)
    Except.ok { w with disk := disk3, hasHandle := false, is_open := false }

/-- `write` folded over a list of payloads. -/
def runWrites (w : EncryptedFileWriter) (ws : List (List ℕ)) :
    Except CaptureError EncryptedFileWriter :=
  ws.foldlM EncryptedFileWriter.write w

/-- The stub encryptor of the writer's unit tests (`NullEncryptor`):
12 bytes of fake nonce, the plaintext, 16 bytes of fake tag. -/
def stubEncryptor : List ℕ → Except String (List ℕ) :=
  fun data => Except.ok (List.replicate 12 0xAA ++ data ++ List.replicate 16 0xBB)

/-- Little-endian `u32` read at byte offset `off`. -/
def readLE32 (l : List ℕ) (off : ℕ) : ℕ :=
  l.getD off 0 + 256 * l.getD (off + 1) 0 + 2 ^ 16 * l.getD (off + 2) 0 +
    2 ^ 24 * l.getD (off + 3) 0

/-! ### Lemmas about the writer model -/

theorem open_file_new (enc : Option (List ℕ → Except String (List ℕ)))
    (cfg : CaptureConfiguration) :
    (EncryptedFileWriter.new enc).open_file cfg = Except.ok
      { encryptor := enc
        disk := wav_format.generate_wav_header (f64ToU32 cfg.sample_rate)
          cfg.bit_depth cfg.channels 0
        hasHandle := true
        total_bytes_written := 44
        is_open := true } := by
  rw [EncryptedFileWriter.open_file]
  simp [EncryptedFileWriter.new, EncryptedFileWriter.write_raw,
    wav_format.generate_wav_header_length]

theorem runWrites_plain (ws : List (List ℕ)) :
    ∀ w : EncryptedFileWriter, w.encryptor = none → w.is_open = true →
      w.hasHandle = true →
      runWrites w ws = Except.ok
        { w with disk := w.disk ++ ws.flatten
                 total_bytes_written :=
                   w.total_bytes_written + (ws.map List.length).sum } := by
  induction ws with
  | nil =>
      intro w he ho hh
      show Except.ok w = _
      simp
  | cons d rest ih =>
      intro w he ho hh
      rw [runWrites, List.foldlM_cons]
      have hw : w.write d = Except.ok { w with
          disk := w.disk ++ d,
          total_bytes_written := w.total_bytes_written + d.length } := by
        rw [EncryptedFileWriter.write, if_neg (by simp [ho]), he,
          EncryptedFileWriter.write_raw, if_pos hh]
        simp [he]
      rw [hw]
      show runWrites _ rest = _
      rw [ih _ (by simpa using he) (by simpa using ho) (by simpa using hh)]
      simp [List.append_assoc, Nat.add_assoc]

theorem writeAt_length (l b : List ℕ) (off : ℕ) (h : off + b.length ≤ l.length) :
    (writeAt l off b).length = l.length := by
  simp [writeAt]
  omega

theorem writeAt_take_of_le (l b : List ℕ) (off n : ℕ) (hn : n ≤ off)
    (hoff : off ≤ l.length) :
    (writeAt l off b).take n = l.take n := by
  rw [writeAt, List.take_append_of_le_length (by simp; omega),
    List.take_append_of_le_length (by simp; omega), List.take_take,
    Nat.min_eq_left hn]

theorem writeAt_getD_in (l b : List ℕ) (off i : ℕ) (hoff : off ≤ l.length)
    (hi : i < b.length) :
    (writeAt l off b).getD (off + i) 0 = b.getD i 0 := by
  have h1 : (l.take off).length = off := by simp; omega
  rw [writeAt, List.getD_eq_getElem?_getD,
    List.getElem?_append_left (by simp only [List.length_append, h1]; omega),
    List.getElem?_append_right (by rw [h1]; omega), h1,
    show off + i - off = i by omega, List.getD_eq_getElem?_getD]

theorem writeAt_getD_after (l b : List ℕ) (off p : ℕ) (hoff : off ≤ l.length)
    (hp : off + b.length ≤ p) :
    (writeAt l off b).getD p 0 = l.getD p 0 := by
  have h1 : (l.take off).length = off := by simp; omega
  rw [writeAt, List.getD_eq_getElem?_getD,
    List.getElem?_append_right (by simp only [List.length_append, h1]; omega),
    List.getElem?_drop]
  simp only [List.length_append, h1]
  rw [show off + b.length + (p - (off + b.length)) = p by omega,
    List.getD_eq_getElem?_getD]

theorem writeAt_drop_of_le (l b : List ℕ) (off n : ℕ) (hn : off + b.length ≤ n)
    (hoff : off + b.length ≤ l.length) :
    (writeAt l off b).drop n = l.drop n := by
  rw [writeAt, List.drop_append_eq_append_drop, List.drop_append_eq_append_drop,
    List.drop_of_length_le (by simp; omega), List.drop_of_length_le (by simp; omega),
    List.nil_append, List.nil_append, List.drop_drop]
  congr 1
  simp only [List.length_append, List.length_take]
  omega

theorem readLE32_writeAt (l b : List ℕ) (off : ℕ) (hoff : off ≤ l.length)
    (hb : b.length = 4) :
    readLE32 (writeAt l off b) off =
      b.getD 0 0 + 256 * b.getD 1 0 + 2 ^ 16 * b.getD 2 0 + 2 ^ 24 * b.getD 3 0 := by
  have g0 : (writeAt l off b).getD off 0 = b.getD 0 0 := by
    simpa using writeAt_getD_in l b off 0 hoff (by omega)
  have g1 := writeAt_getD_in l b off 1 hoff (by omega)
  have g2 := writeAt_getD_in l b off 2 hoff (by omega)
  have g3 := writeAt_getD_in l b off 3 hoff (by omega)
  rw [readLE32, g0, g1, g2, g3]

theorem readLE32_writeAt_after (l b : List ℕ) (off p : ℕ) (hoff : off ≤ l.length)
    (hp : off + b.length ≤ p) :
    readLE32 (writeAt l off b) p = readLE32 l p := by
  rw [readLE32, readLE32,
    writeAt_getD_after l b off p hoff (by omega),
    writeAt_getD_after l b off (p + 1) hoff (by omega),
    writeAt_getD_after l b off (p + 2) hoff (by omega),
    writeAt_getD_after l b off (p + 3) hoff (by omega)]

theorem le32_decode (n : ℕ) :
    (wav_format.le32 n).getD 0 0 + 256 * (wav_format.le32 n).getD 1 0 +
      2 ^ 16 * (wav_format.le32 n).getD 2 0 +
      2 ^ 24 * (wav_format.le32 n).getD 3 0 = n % 2 ^ 32 := by
  simp only [wav_format.le32, List.getD_cons_zero, List.getD_cons_succ]
  omega

theorem readLE32_le32_append (n : ℕ) (rest : List ℕ) :
    readLE32 (wav_format.le32 n ++ rest) 0 = n % 2 ^ 32 := by
  simp only [readLE32, wav_format.le32, List.cons_append, List.nil_append,
    List.getD_cons_zero, List.getD_cons_succ, Nat.zero_add]
  omega

theorem readLE32_append_header (header rest : List ℕ) (h44 : header.length = 44) :
    readLE32 (header ++ rest) 44 = readLE32 rest 0 := by
  have g : ∀ i, (header ++ rest).getD (44 + i) 0 = rest.getD i 0 := by
    intro i
    rw [List.getD_eq_getElem?_getD, List.getElem?_append_right (by omega), h44,
      show 44 + i - 44 = i by omega, List.getD_eq_getElem?_getD]
  have g0 : (header ++ rest).getD 44 0 = rest.getD 0 0 := by simpa using g 0
  rw [readLE32, readLE32, g0, g 1, g 2, g 3]

theorem except_bind_ok {ε α β : Type} (a : α) (f : α → Except ε β) :
    (Except.ok a >>= f) = f a := rfl

theorem le32_length (n : ℕ) : (wav_format.le32 n).length = 4 := rfl

theorem close_plain (w : EncryptedFileWriter) (ho : w.is_open = true) (ch bd : ℕ) :
    w.close none ch bd = Except.ok { w with
      disk := writeAt (writeAt w.disk 4 (wav_format.le32 (w.total_bytes_written - 8)))
        40 (wav_format.le32 (w.total_bytes_written - wav_format.WAV_HEADER_SIZE)),
      hasHandle := false,
      is_open := false } := by
  rw [EncryptedFileWriter.close, if_neg (by simp [ho])]

theorem write_encrypted (w : EncryptedFileWriter)
    (enc : List ℕ → Except String (List ℕ)) (data sealed : List ℕ)
    (ho : w.is_open = true) (hh : w.hasHandle = true) (he : w.encryptor = some enc)
    (hseal : enc data = Except.ok sealed) :
    w.write data = Except.ok { w with
      disk := w.disk ++ wav_format.le32 sealed.length ++ sealed,
      total_bytes_written := w.total_bytes_written + 4 + sealed.length } := by
  rw [EncryptedFileWriter.write, if_neg (by simp [ho]), he]
  simp [hseal, he, EncryptedFileWriter.write_raw, hh, le32_length, List.append_assoc,
    Nat.add_assoc]

/-! ### Claim C3 -/

/-- Claim C3: after `open`, any sequence of successful writes and a
successful `close`: without an encryptor the on-disk file is the 44-byte
header followed by the written bytes (size `44 + N`, bytes 0..4 `"RIFF"`,
`data_size` field at offset 40 equal to `N`, payload intact after the
header); with an encryptor, each `write` appends a 4-byte little-endian
length prefix equal to the sealed chunk's length followed by the sealed
bytes; with the unit tests' stub encryptor (12-byte nonce ++ plaintext ++
16-byte tag), one write of `N` bytes yields file size `44 + 4 + (N + 28)`
and a length prefix at offset 44 decoding to `N + 28`. -/
theorem encrypted_writer_file_layout :
    (∀ (cfg : CaptureConfiguration) (ws : List (List ℕ)),
      (ws.map List.length).sum < 2 ^ 32 →
      ∃ w2 : EncryptedFileWriter,
        ((EncryptedFileWriter.new none).open_file cfg >>= fun w =>
            runWrites w ws >>= fun w1 =>
              w1.close none cfg.channels cfg.bit_depth) = Except.ok w2 ∧
        w2.disk.length = 44 + (ws.map List.length).sum ∧
        w2.disk.take 4 = [82, 73, 70, 70] ∧
        readLE32 w2.disk 40 = (ws.map List.length).sum ∧
        w2.disk.drop 44 = ws.flatten) ∧
    (∀ (w : EncryptedFileWriter) (enc : List ℕ → Except String (List ℕ))
        (data sealed : List ℕ),
      w.is_open = true → w.hasHandle = true → w.encryptor = some enc →
      enc data = Except.ok sealed →
      w.write data = Except.ok { w with
        disk := w.disk ++ wav_format.le32 sealed.length ++ sealed,
        total_bytes_written := w.total_bytes_written + 4 + sealed.length }) ∧
    (∀ (cfg : CaptureConfiguration) (data : List ℕ),
      data.length + 28 < 2 ^ 32 →
      ∃ w2 : EncryptedFileWriter,
        ((EncryptedFileWriter.new (some stubEncryptor)).open_file cfg >>= fun w =>
            w.write data >>= fun w1 =>
              w1.close none cfg.channels cfg.bit_depth) = Except.ok w2 ∧
        w2.disk.length = 44 + 4 + (data.length + 28) ∧
        readLE32 w2.disk 44 = data.length + 28) := by
  refine ⟨?_, ?_, ?_⟩
  · intro cfg ws hN
    have hhl : (wav_format.generate_wav_header (f64ToU32 cfg.sample_rate)
        cfg.bit_depth cfg.channels 0).length = 44 :=
      wav_format.generate_wav_header_length _ _ _ _
    have h1 := open_file_new none cfg
    have h2 : runWrites
        { encryptor := none
          disk := wav_format.generate_wav_header (f64ToU32 cfg.sample_rate)
            cfg.bit_depth cfg.channels 0
          hasHandle := true
          total_bytes_written := 44
          is_open := true } ws =
        Except.ok
          { encryptor := none
            disk := wav_format.generate_wav_header (f64ToU32 cfg.sample_rate)
              cfg.bit_depth cfg.channels 0 ++ ws.flatten
            hasHandle := true
            total_bytes_written := 44 + (ws.map List.length).sum
            is_open := true } :=
      (runWrites_plain ws _ rfl rfl rfl).trans (by rfl)
    have h3 : EncryptedFileWriter.close
        { encryptor := none
          disk := wav_format.generate_wav_header (f64ToU32 cfg.sample_rate)
            cfg.bit_depth cfg.channels 0 ++ ws.flatten
          hasHandle := true
          total_bytes_written := 44 + (ws.map List.length).sum
          is_open := true } none cfg.channels cfg.bit_depth =
        Except.ok
          { encryptor := none
            disk := writeAt (writeAt (wav_format.generate_wav_header
                (f64ToU32 cfg.sample_rate) cfg.bit_depth cfg.channels 0 ++ ws.flatten)
                4 (wav_format.le32 (44 + (ws.map List.length).sum - 8))) 40
              (wav_format.le32 (44 + (ws.map List.length).sum -
                wav_format.WAV_HEADER_SIZE))
            hasHandle := false
            total_bytes_written := 44 + (ws.map List.length).sum
            is_open := false } :=
      (close_plain _ rfl cfg.channels cfg.bit_depth).trans (by rfl)
    have hDlen : (wav_format.generate_wav_header (f64ToU32 cfg.sample_rate)
        cfg.bit_depth cfg.channels 0 ++ ws.flatten).length =
        44 + (ws.map List.length).sum := by
      rw [List.length_append, hhl, List.length_flatten]
    have hinner : (writeAt (wav_format.generate_wav_header (f64ToU32 cfg.sample_rate)
        cfg.bit_depth cfg.channels 0 ++ ws.flatten) 4
          (wav_format.le32 (44 + (ws.map List.length).sum - 8))).length =
        44 + (ws.map List.length).sum := by
      rw [writeAt_length _ _ _ (by rw [le32_length, hDlen]; omega), hDlen]
    refine ⟨{ encryptor := none
              disk := writeAt (writeAt (wav_format.generate_wav_header
                  (f64ToU32 cfg.sample_rate) cfg.bit_depth cfg.channels 0 ++ ws.flatten)
                  4 (wav_format.le32 (44 + (ws.map List.length).sum - 8))) 40
                (wav_format.le32 (44 + (ws.map List.length).sum -
                  wav_format.WAV_HEADER_SIZE))
              hasHandle := false
              total_bytes_written := 44 + (ws.map List.length).sum
              is_open := false },
      by simp only [h1, except_bind_ok, h2, h3], ?_, ?_, ?_, ?_⟩
    · show (writeAt (writeAt _ 4 _) 40 _).length = _
      rw [writeAt_length _ _ _ (by rw [le32_length, hinner]; omega), hinner]
    · show (writeAt (writeAt _ 4 _) 40 _).take 4 = _
      rw [writeAt_take_of_le _ _ _ _ (by omega) (by rw [hinner]; omega),
        writeAt_take_of_le _ _ _ _ (by omega) (by rw [hDlen]; omega),
        List.take_append_of_le_length (by rw [hhl]; omega)]
      rfl
    · show readLE32 (writeAt (writeAt _ 4 _) 40 _) 40 = _
      rw [readLE32_writeAt _ _ _ (by rw [hinner]; omega) (le32_length _), le32_decode]
      have hsub : 44 + (ws.map List.length).sum - wav_format.WAV_HEADER_SIZE =
          (ws.map List.length).sum := by
        simp [wav_format.WAV_HEADER_SIZE]
      rw [hsub, Nat.mod_eq_of_lt hN]
    · show (writeAt (writeAt _ 4 _) 40 _).drop 44 = _
      rw [writeAt_drop_of_le _ _ _ _ (by simp [le32_length])
          (by rw [le32_length, hinner]; omega),
        writeAt_drop_of_le _ _ _ _ (by simp [le32_length])
          (by rw [le32_length, hDlen]; omega),
        show (44 : ℕ) = (wav_format.generate_wav_header (f64ToU32 cfg.sample_rate)
          cfg.bit_depth cfg.channels 0).length from hhl.symm,
        List.drop_left]
  · intro w enc data sealed ho hh he hseal
    exact write_encrypted w enc data sealed ho hh he hseal
  · intro cfg data hN
    have hhl : (wav_format.generate_wav_header (f64ToU32 cfg.sample_rate)
        cfg.bit_depth cfg.channels 0).length = 44 :=
      wav_format.generate_wav_header_length _ _ _ _
    have hslen : (List.replicate 12 (0xAA : ℕ) ++ data ++
        List.replicate 16 (0xBB : ℕ)).length = data.length + 28 := by
      simp
    have h1 := open_file_new (some stubEncryptor) cfg
    have h2 : EncryptedFileWriter.write
        { encryptor := some stubEncryptor
          disk := wav_format.generate_wav_header (f64ToU32 cfg.sample_rate)
            cfg.bit_depth cfg.channels 0
          hasHandle := true
          total_bytes_written := 44
          is_open := true } data =
        Except.ok
          { encryptor := some stubEncryptor
            disk := wav_format.generate_wav_header (f64ToU32 cfg.sample_rate)
              cfg.bit_depth cfg.channels 0 ++
              wav_format.le32 (List.replicate 12 (0xAA : ℕ) ++ data ++
                List.replicate 16 (0xBB : ℕ)).length ++
              (List.replicate 12 (0xAA : ℕ) ++ data ++ List.replicate 16 (0xBB : ℕ))
            hasHandle := true
            total_bytes_written := 44 + 4 + (List.replicate 12 (0xAA : ℕ) ++ data ++
              List.replicate 16 (0xBB : ℕ)).length
            is_open := true } :=
      (write_encrypted _ stubEncryptor data
        (List.replicate 12 (0xAA : ℕ) ++ data ++ List.replicate 16 (0xBB : ℕ))
        rfl rfl rfl rfl).trans (by rfl)
    have h3 : EncryptedFileWriter.close
        { encryptor := some stubEncryptor
          disk := wav_format.generate_wav_header (f64ToU32 cfg.sample_rate)
            cfg.bit_depth cfg.channels 0 ++
            wav_format.le32 (List.replicate 12 (0xAA : ℕ) ++ data ++
              List.replicate 16 (0xBB : ℕ)).length ++
            (List.replicate 12 (0xAA : ℕ) ++ data ++ List.replicate 16 (0xBB : ℕ))
          hasHandle := true
          total_bytes_written := 44 + 4 + (List.replicate 12 (0xAA : ℕ) ++ data ++
            List.replicate 16 (0xBB : ℕ)).length
          is_open := true } none cfg.channels cfg.bit_depth =
        Except.ok
          { encryptor := some stubEncryptor
            disk := writeAt (writeAt (wav_format.generate_wav_header
                (f64ToU32 cfg.sample_rate) cfg.bit_depth cfg.channels 0 ++
                wav_format.le32 (List.replicate 12 (0xAA : ℕ) ++ data ++
                  List.replicate 16 (0xBB : ℕ)).length ++
                (List.replicate 12 (0xAA : ℕ) ++ data ++
                  List.replicate 16 (0xBB : ℕ))) 4
                (wav_format.le32 (44 + 4 + (List.replicate 12 (0xAA : ℕ) ++ data ++
                  List.replicate 16 (0xBB : ℕ)).length - 8))) 40
              (wav_format.le32 (44 + 4 + (List.replicate 12 (0xAA : ℕ) ++ data ++
                List.replicate 16 (0xBB : ℕ)).length - wav_format.WAV_HEADER_SIZE))
            hasHandle := false
            total_bytes_written := 44 + 4 + (List.replicate 12 (0xAA : ℕ) ++ data ++
              List.replicate 16 (0xBB : ℕ)).length
            is_open := false } :=
      (close_plain _ rfl cfg.channels cfg.bit_depth).trans (by rfl)
    have hDlen : (wav_format.generate_wav_header (f64ToU32 cfg.sample_rate)
        cfg.bit_depth cfg.channels 0 ++
        wav_format.le32 (List.replicate 12 (0xAA : ℕ) ++ data ++
          List.replicate 16 (0xBB : ℕ)).length ++
        (List.replicate 12 (0xAA : ℕ) ++ data ++
          List.replicate 16 (0xBB : ℕ))).length = 44 + 4 + (data.length + 28) := by
      rw [List.length_append, List.length_append, hhl, le32_length, hslen]
    have hinner : (writeAt (wav_format.generate_wav_header (f64ToU32 cfg.sample_rate)
        cfg.bit_depth cfg.channels 0 ++
        wav_format.le32 (List.replicate 12 (0xAA : ℕ) ++ data ++
          List.replicate 16 (0xBB : ℕ)).length ++
        (List.replicate 12 (0xAA : ℕ) ++ data ++ List.replicate 16 (0xBB : ℕ))) 4
          (wav_format.le32 (44 + 4 + (List.replicate 12 (0xAA : ℕ) ++ data ++
            List.replicate 16 (0xBB : ℕ)).length - 8))).length =
        44 + 4 + (data.length + 28) := by
      rw [writeAt_length _ _ _ (by rw [le32_length, hDlen]; omega), hDlen]
    refine ⟨{ encryptor := some stubEncryptor
              disk := writeAt (writeAt (wav_format.generate_wav_header
                  (f64ToU32 cfg.sample_rate) cfg.bit_depth cfg.channels 0 ++
                  wav_format.le32 (List.replicate 12 (0xAA : ℕ) ++ data ++
                    List.replicate 16 (0xBB : ℕ)).length ++
                  (List.replicate 12 (0xAA : ℕ) ++ data ++
                    List.replicate 16 (0xBB : ℕ))) 4
                  (wav_format.le32 (44 + 4 + (List.replicate 12 (0xAA : ℕ) ++ data ++
                    List.replicate 16 (0xBB : ℕ)).length - 8))) 40
                (wav_format.le32 (44 + 4 + (List.replicate 12 (0xAA : ℕ) ++ data ++
                  List.replicate 16 (0xBB : ℕ)).length - wav_format.WAV_HEADER_SIZE))
              hasHandle := false
              total_bytes_written := 44 + 4 + (List.replicate 12 (0xAA : ℕ) ++ data ++
                List.replicate 16 (0xBB : ℕ)).length
              is_open := false },
      by simp only [h1, except_bind_ok, h2, h3], ?_, ?_⟩
    · show (writeAt (writeAt _ 4 _) 40 _).length = _
      rw [writeAt_length _ _ _ (by rw [le32_length, hinner]; omega), hinner]
    · show readLE32 (writeAt (writeAt _ 4 _) 40 _) 44 = _
      rw [readLE32_writeAt_after _ _ _ _ (by rw [hinner]; omega)
          (by simp [le32_length]),
        readLE32_writeAt_after _ _ _ _ (by rw [hDlen]; omega)
          (by simp [le32_length]),
        List.append_assoc,
        readLE32_append_header _ _ hhl, readLE32_le32_append, hslen,
        Nat.mod_eq_of_lt hN]

/-- Witness for C3: the plain pipeline at two writes `[1,2]` and `[3]`, the
encrypted chunk-framing law on a concrete open writer, and the stub pipeline
with the single write `[9]`. -/
theorem encrypted_writer_file_layout_witness :
    (([[1, 2], [3]] : List (List ℕ)).map List.length).sum < 2 ^ 32 ∧
    (∃ w2 : EncryptedFileWriter,
      ((EncryptedFileWriter.new none).open_file CaptureConfiguration.default >>=
          fun w => runWrites w [[1, 2], [3]] >>= fun w1 =>
            w1.close none CaptureConfiguration.default.channels
              CaptureConfiguration.default.bit_depth) = Except.ok w2 ∧
      w2.disk.length = 44 + (([[1, 2], [3]] : List (List ℕ)).map List.length).sum ∧
      w2.disk.take 4 = [82, 73, 70, 70] ∧
      readLE32 w2.disk 40 = (([[1, 2], [3]] : List (List ℕ)).map List.length).sum ∧
      w2.disk.drop 44 = ([[1, 2], [3]] : List (List ℕ)).flatten) ∧
    EncryptedFileWriter.write
        { encryptor := some stubEncryptor, disk := [], hasHandle := true,
          total_bytes_written := 0, is_open := true } [5] = Except.ok
      { encryptor := some stubEncryptor
        disk := ([] : List ℕ) ++ wav_format.le32 (List.replicate 12 (0xAA : ℕ) ++ [5] ++
          List.replicate 16 (0xBB : ℕ)).length ++
          (List.replicate 12 (0xAA : ℕ) ++ [5] ++ List.replicate 16 (0xBB : ℕ))
        hasHandle := true
        total_bytes_written := 0 + 4 + (List.replicate 12 (0xAA : ℕ) ++ [5] ++
          List.replicate 16 (0xBB : ℕ)).length
        is_open := true } ∧
    (∃ w2 : EncryptedFileWriter,
      ((EncryptedFileWriter.new (some stubEncryptor)).open_file
          CaptureConfiguration.default >>= fun w =>
            w.write [9] >>= fun w1 =>
              w1.close none CaptureConfiguration.default.channels
                CaptureConfiguration.default.bit_depth) = Except.ok w2 ∧
      w2.disk.length = 44 + 4 + (([9] : List ℕ).length + 28) ∧
      readLE32 w2.disk 44 = ([9] : List ℕ).length + 28) :=
  ⟨by norm_num,
   encrypted_writer_file_layout.1 CaptureConfiguration.default [[1, 2], [3]]
     (by norm_num),
   (encrypted_writer_file_layout.2.1
       { encryptor := some stubEncryptor, disk := [], hasHandle := true,
         total_bytes_written := 0, is_open := true } stubEncryptor [5]
       (List.replicate 12 (0xAA : ℕ) ++ [5] ++ List.replicate 16 (0xBB : ℕ))
       rfl rfl rfl rfl).trans (by rfl),
   encrypted_writer_file_layout.2.2 CaptureConfiguration.default [9] (by norm_num)⟩

/-! ### Claim C10 -/

/-- Claim C10: `open` is idempotent — a second `open` on an already-open
writer returns `Ok` with the writer completely unchanged (no second header,
same file contents, same `total_bytes_written`). -/
theorem open_file_idempotent (w : EncryptedFileWriter) (cfg : CaptureConfiguration)
    (h : w.is_open = true) :
    w.open_file cfg = Except.ok w ∧
    (w.open_file cfg).map EncryptedFileWriter.disk = Except.ok w.disk ∧
    (w.open_file cfg).map EncryptedFileWriter.total_bytes_written =
      Except.ok w.total_bytes_written := by
  have hopen : w.open_file cfg = Except.ok w := by
    rw [EncryptedFileWriter.open_file, if_pos h]
  exact ⟨hopen, by rw [hopen]; rfl, by rw [hopen]; rfl⟩

/-- Witness for C10: a concrete already-open writer is returned unchanged. -/
theorem open_file_idempotent_witness :
    ({ encryptor := none, disk := List.replicate 44 0, hasHandle := true,
       total_bytes_written := 44, is_open := true } :
        EncryptedFileWriter).is_open = true ∧
    ({ encryptor := none, disk := List.replicate 44 0, hasHandle := true,
       total_bytes_written := 44, is_open := true } :
        EncryptedFileWriter).open_file CaptureConfiguration.default = Except.ok
      { encryptor := none, disk := List.replicate 44 0, hasHandle := true,
        total_bytes_written := 44, is_open := true } :=
  ⟨rfl, (open_file_idempotent
    { encryptor := none, disk := List.replicate 44 0, hasHandle := true,
      total_bytes_written := 44, is_open := true }
    CaptureConfiguration.default rfl).1⟩

/-! ## Session state (`models/state.rs`)

`Capturing`/`Paused` carry `duration_secs : f64` (as `ℚ`).  `Completed`
carries a `RecordingResult` in the source; the payload plays no role in any
claim and is elided here.  `Failed` carries its error. -/

inductive CaptureState where
  | Idle
  | Configuring
  | Ready
  | Capturing (duration_secs : ℚ)
  | Paused (duration_secs : ℚ)
  | Stopping
  | Completed
  | Failed (e : CaptureError)
deriving Repr, DecidableEq

/-- `CaptureState::is_idle`. -/
def CaptureState.is_idle : CaptureState → Bool
  | CaptureState.Idle => true
  | _ => false

/-- `CaptureState::is_capturing`. -/
def CaptureState.is_capturing : CaptureState → Bool
  | CaptureState.Capturing _ => true
  | _ => false

/-- `CaptureState::is_paused`. -/
def CaptureState.is_paused : CaptureState → Bool
  | CaptureState.Paused _ => true
  | _ => false

/-! ## Session orchestrator (`session/composite.rs`)

The embedding models the session's control state and owned resources: the
mixer's target rate, the configuration, the state machine, the two ring
buffers and the writer.  The provider objects, the delegate callbacks,
wall-clock timing (`Instant`), the levels/diagnostics accumulators, the
output file path (UUID) and the two worker threads are I/O and concurrency
and are not modelled; the outcome of each provider call made by
`start_capture` is supplied through `ProviderEnv`.  Methods take and return
the session (for `&mut self`) paired with the returned `Result`, so a
partially-mutated session on an error path is preserved faithfully. -/

structure CompositeSession where
  mixerTargetRate : ℚ
  config : Option CaptureConfiguration
  state : CaptureState
  micBuffer : RingBuffer
  systemBuffer : RingBuffer
  writer : Option EncryptedFileWriter
  detected_mic_rate : Option ℚ

/-- `CompositeSession::new`: idle, placeholder 1-sample ring buffers. -/
def CompositeSession.new : CompositeSession :=
  { mixerTargetRate := 48000
    config := none
    state := CaptureState.Idle
    micBuffer := RingBuffer.new 1
    systemBuffer := RingBuffer.new 1
    writer := none
    detected_mic_rate := none }

/-- Outcomes of the provider calls made during `start_capture`. -/
structure ProviderEnv where
  micAvailable : Bool
  systemAvailable : Bool
  micStart : Except CaptureError Unit
  systemStart : Except CaptureError Unit

/-- `CompositeSession::configure`: guard on `Idle`, validate, then size the
ring buffers for 5 seconds (`as usize` truncates) and go `Configuring` →
`Ready`. -/
def CompositeSession.configure (s : CompositeSession)
    (config : CaptureConfiguration) : CompositeSession × Except CaptureError Unit :=
  if ¬ s.state.is_idle then
    (s, Except.error (CaptureError.ConfigurationFailed
      "can only configure from idle state"))
  else
    match config.validate with
    | Except.error m => (s, Except.error (CaptureError.ConfigurationFailed m))
    | Except.ok _ =>
        let s := { s with state := CaptureState.Configuring }
        let s := { s with mixerTargetRate := config.sample_rate }
        let buffer_capacity := (⌊config.sample_rate * 5⌋).toNat
        let s := { s with micBuffer := RingBuffer.new buffer_capacity
                          systemBuffer := RingBuffer.new (buffer_capacity * 2) }
        ({ s with config := some config, state := CaptureState.Ready },
          Except.ok ())

/-- `CompositeSession::start_capture`: require a configuration and the
`Ready` state, open the writer, start the enabled and available providers
(their callbacks run on capture threads and are not modelled), then go
`Capturing 0` and spawn the workers (elided). -/
def CompositeSession.start_capture (s : CompositeSession) (env : ProviderEnv) :
    CompositeSession × Except CaptureError Unit :=
  match s.config with
  | none => (s, Except.error (CaptureError.ConfigurationFailed "not configured"))
  | some config =>
      if s.state ≠ CaptureState.Ready then
        (s, Except.error (CaptureError.ConfigurationFailed
          "can only start from ready state"))
      else
        let writer0 := EncryptedFileWriter.new config.encryptor
        match writer0.open_file config with
        | Except.error e => (s, Except.error e)
        | Except.ok w =>
            let s := { s with writer := some w }
            match (if config.enable_mic_capture && env.micAvailable then
                env.micStart else Except.ok ()) with
            | Except.error e => (s, Except.error e)
            | Except.ok _ =>
                match (if config.enable_system_capture && env.systemAvailable then
                    env.systemStart else Except.ok ()) with
                | Except.error e => (s, Except.error e)
                | Except.ok _ =>
                    ({ s with state := CaptureState.Capturing 0 }, Except.ok ())

/-- `CompositeSession::pause_capture` (the `last_pause_time` timestamp is
wall-clock and elided). -/
def CompositeSession.pause_capture (s : CompositeSession) :
    CompositeSession × Except CaptureError Unit :=
  match s.state with
  | CaptureState.Capturing duration_secs =>
      ({ s with state := CaptureState.Paused duration_secs }, Except.ok ())
  | _ => (s, Except.error (CaptureError.ConfigurationFailed
      "can only pause from capturing state"))

/-- `CompositeSession::resume_capture` (the `paused_duration` bookkeeping is
wall-clock and elided). -/
def CompositeSession.resume_capture (s : CompositeSession) :
    CompositeSession × Except CaptureError Unit :=
  match s.state with
  | CaptureState.Paused duration_secs =>
      ({ s with state := CaptureState.Capturing duration_secs }, Except.ok ())
  | _ => (s, Except.error (CaptureError.ConfigurationFailed
      "can only resume from paused state"))

/-- `CompositeSession::process_buffers_inner`: drain up to a chunk from the
ring buffers, mix, convert to PCM and write; a write error is logged and the
writer kept (diagnostics counters elided). -/
def processBuffersInner (micBuf sysBuf : RingBuffer)
    (writer : Option EncryptedFileWriter) (enable_system : Bool)
    (chunk_size : ℕ) : RingBuffer × RingBuffer × Option EncryptedFileWriter :=
  if enable_system then
    let system_frames_available := sysBuf.count / 2
    let frames_to_process := min system_frames_available chunk_size
    if frames_to_process = 0 then (micBuf, sysBuf, writer)
    else
      let sysRead := sysBuf.read (frames_to_process * 2)
      let micRead := micBuf.read frames_to_process
      let stereo := StereoMixer.mix_mic_with_stereo_system micRead.1 sysRead.1
      let pcm := StereoMixer.convert_to_int16_pcm stereo
      let writer := match writer with
        | some w =>
            match w.write pcm with
            | Except.ok w2 => some w2
            | Except.error _ => some w
        | none => none
      (micRead.2, sysRead.2, writer)
  else
    let micRead := micBuf.read chunk_size
    if micRead.1.isEmpty then (micRead.2, sysBuf, writer)
    else
      let stereo := StereoMixer.mix_mic_with_stereo_system micRead.1 []
      let pcm := StereoMixer.convert_to_int16_pcm stereo
      let writer := match writer with
        | some w =>
            match w.write pcm with
            | Except.ok w2 => some w2
            | Except.error _ => some w
        | none => none
      (micRead.2, sysBuf, writer)

/-- `CompositeSession::stop_capture`: guard on `Capturing`/`Paused`, go
`Stopping`, stop providers and join workers (elided), flush once
(`process_buffers_once`), close the writer with
`actual_rate = min(detected, configured)` (the source never sets
`detected_mic_rate`), then `Completed` and reset to `Idle`.  The
`RecordingMetadata`/`RecordingResult` and delegate notification are elided
along with the `Completed` payload. -/
def CompositeSession.stop_capture (s : CompositeSession) :
    CompositeSession × Except CaptureError Unit :=
  if ¬ (s.state.is_capturing || s.state.is_paused) then
    (s, Except.error (CaptureError.ConfigurationFailed
      "can only stop from capturing or paused state"))
  else
    let s := { s with state := CaptureState.Stopping }
    let flushed := match s.config with
      | some config =>
          processBuffersInner s.micBuffer s.systemBuffer s.writer
            config.enable_system_capture ((⌊config.sample_rate * (1 / 10)⌋).toNat)
      | none => (s.micBuffer, s.systemBuffer, s.writer)
    let s := { s with micBuffer := flushed.1
                      systemBuffer := flushed.2.1
                      writer := flushed.2.2 }
    match s.config with
    | none =>
        -- the source calls `self.config.as_ref().unwrap()` here: an
        -- unconfigured session cannot reach Capturing/Paused, so the panic
        -- is modelled as an Unknown error
        (s, Except.error (CaptureError.Unknown "config unwrap panicked"))
    | some config =>
        let actual_rate := s.detected_mic_rate.map (fun r => min r config.sample_rate)
        match s.writer with
        | some w =>
            match w.close actual_rate config.channels config.bit_depth with
            | Except.error e => (s, Except.error e)
            | Except.ok _ =>
                let s := { s with writer := none }
                let s := { s with state := CaptureState.Completed }
                ({ s with state := CaptureState.Idle }, Except.ok ())
        | none =>
            (s, Except.error (CaptureError.StorageError "file writer not available"))

/-- Configuration with both capture sides disabled (all other fields are the
defaults, hence valid). -/
def cfgBothDisabled : CaptureConfiguration :=
  { CaptureConfiguration.default with
    enable_mic_capture := false
    enable_system_capture := false }

/-- Configuration whose sample rate `199/25 = 7.96` makes `rate·5 = 39.8`
land strictly between truncation (39) and rounding (40). -/
def cfgFractionalRate : CaptureConfiguration :=
  { CaptureConfiguration.default with sample_rate := 199 / 25 }

/-- A session sitting in `Stopping`: not `Idle`, not `Ready`, not
`Capturing`, not `Paused`, so it violates all five state guards at once. -/
def sessionStopping : CompositeSession :=
  { CompositeSession.new with state := CaptureState.Stopping }

/-- Provider environment in which both providers are available and start
successfully. -/
def envAllOk : ProviderEnv :=
  { micAvailable := true
    systemAvailable := true
    micStart := Except.ok ()
    systemStart := Except.ok () }

/-- Claim C1: each session-control method invoked outside its permitted
predecessor states (`configure`: `Idle`; `start_capture`: `Ready`;
`pause_capture`: `Capturing`; `resume_capture`: `Paused`; `stop_capture`:
`Capturing` or `Paused`) returns a `ConfigurationFailed` error and returns
the session — its state included — unchanged. -/
theorem session_state_guards (s : CompositeSession)
    (cfg : CaptureConfiguration) (env : ProviderEnv) :
    (¬ s.state.is_idle = true →
      s.configure cfg = (s, Except.error (CaptureError.ConfigurationFailed
        "can only configure from idle state"))) ∧
    (s.state ≠ CaptureState.Ready →
      ∃ m, s.start_capture env =
        (s, Except.error (CaptureError.ConfigurationFailed m))) ∧
    (¬ s.state.is_capturing = true →
      s.pause_capture = (s, Except.error (CaptureError.ConfigurationFailed
        "can only pause from capturing state"))) ∧
    (¬ s.state.is_paused = true →
      s.resume_capture = (s, Except.error (CaptureError.ConfigurationFailed
        "can only resume from paused state"))) ∧
    (¬ (s.state.is_capturing = true ∨ s.state.is_paused = true) →
      s.stop_capture = (s, Except.error (CaptureError.ConfigurationFailed
        "can only stop from capturing or paused state"))) := by
  refine ⟨?_, ?_, ?_, ?_, ?_⟩
  · intro h
    rw [CompositeSession.configure, if_pos h]
  · intro h
    rcases hc : s.config with _ | config
    · exact ⟨"not configured", by simp [CompositeSession.start_capture, hc]⟩
    · exact ⟨"can only start from ready state",
        by simp [CompositeSession.start_capture, hc, h]⟩
  · intro h
    rw [CompositeSession.pause_capture]
    cases hs : s.state <;>
      first
        | rfl
        | (rw [hs] at h; simp [CaptureState.is_capturing] at h)
  · intro h
    rw [CompositeSession.resume_capture]
    cases hs : s.state <;>
      first
        | rfl
        | (rw [hs] at h; simp [CaptureState.is_paused] at h)
  · intro h
    have hcond : ¬ (s.state.is_capturing || s.state.is_paused) = true := by
      simp only [Bool.or_eq_true]
      exact h
    rw [CompositeSession.stop_capture, if_pos hcond]

/-- Witness for C1: the `Stopping` state violates all five guards, and each
method returns exactly the guard error with the session unchanged. -/
theorem session_state_guards_witness :
    sessionStopping.configure CaptureConfiguration.default =
      (sessionStopping, Except.error (CaptureError.ConfigurationFailed
        "can only configure from idle state")) ∧
    (∃ m, sessionStopping.start_capture envAllOk =
      (sessionStopping, Except.error (CaptureError.ConfigurationFailed m))) ∧
    sessionStopping.pause_capture =
      (sessionStopping, Except.error (CaptureError.ConfigurationFailed
        "can only pause from capturing state")) ∧
    sessionStopping.resume_capture =
      (sessionStopping, Except.error (CaptureError.ConfigurationFailed
        "can only resume from paused state")) ∧
    sessionStopping.stop_capture =
      (sessionStopping, Except.error (CaptureError.ConfigurationFailed
        "can only stop from capturing or paused state")) := by
  obtain ⟨h1, h2, h3, h4, h5⟩ :=
    session_state_guards sessionStopping CaptureConfiguration.default envAllOk
  exact ⟨h1 (by decide), h2 (by decide), h3 (by decide), h4 (by decide),
    h5 (by decide)⟩

/-- Claim C8 counterexample: a configuration with both capture sides
disabled and every other field at its (valid) default passes `validate`,
and `configure` on a fresh idle session accepts it and reaches `Ready` —
the validation never inspects the enable flags, so the claimed rejection
does not happen. -/
theorem both_flags_false_accepted :
    cfgBothDisabled.enable_mic_capture = false ∧
    cfgBothDisabled.enable_system_capture = false ∧
    cfgBothDisabled.validate = Except.ok () ∧
    (CompositeSession.new.configure cfgBothDisabled).2 = Except.ok () ∧
    (CompositeSession.new.configure cfgBothDisabled).1.state =
      CaptureState.Ready := by
  have hv : cfgBothDisabled.validate = Except.ok () := by
    rw [CaptureConfiguration.validate]
    norm_num [cfgBothDisabled, CaptureConfiguration.default]
  have hidle : CompositeSession.new.state.is_idle = true := rfl
  refine ⟨rfl, rfl, hv, ?_, ?_⟩
  · rw [CompositeSession.configure, if_neg (not_not_intro hidle), hv]
  · rw [CompositeSession.configure, if_neg (not_not_intro hidle), hv]

/-- Claim C8 (amended): the validation performed at `configure` checks only
sample rate, bit depth and channel count; a configuration with both
`enable_mic_capture` and `enable_system_capture` false but those three
fields valid is accepted, and an idle session reaches `Ready`.  The spec's
"at least one must be true" is not enforced anywhere in the code. -/
theorem configure_accepts_both_flags_false (s : CompositeSession)
    (cfg : CaptureConfiguration)
    (_hm : cfg.enable_mic_capture = false)
    (_hs : cfg.enable_system_capture = false)
    (hidle : s.state.is_idle = true)
    (hrate : 0 < cfg.sample_rate)
    (hdepth : cfg.bit_depth = 16 ∨ cfg.bit_depth = 24 ∨ cfg.bit_depth = 32)
    (hch : cfg.channels = 1 ∨ cfg.channels = 2) :
    cfg.validate = Except.ok () ∧
    (s.configure cfg).2 = Except.ok () ∧
    (s.configure cfg).1.state = CaptureState.Ready := by
  have hv : cfg.validate = Except.ok () := by
    rw [CaptureConfiguration.validate, if_neg (not_le.mpr hrate),
      if_neg (not_not_intro hdepth), if_neg (not_not_intro hch)]
  refine ⟨hv, ?_, ?_⟩
  · rw [CompositeSession.configure, if_neg (not_not_intro hidle), hv]
  · rw [CompositeSession.configure, if_neg (not_not_intro hidle), hv]

/-- Witness for C8 (amended): the both-disabled default configuration. -/
theorem configure_accepts_both_flags_false_witness :
    cfgBothDisabled.validate = Except.ok () ∧
    (CompositeSession.new.configure cfgBothDisabled).2 = Except.ok () ∧
    (CompositeSession.new.configure cfgBothDisabled).1.state =
      CaptureState.Ready :=
  configure_accepts_both_flags_false CompositeSession.new cfgBothDisabled
    rfl rfl rfl
    (by norm_num [cfgBothDisabled, CaptureConfiguration.default])
    (Or.inl rfl) (Or.inr rfl)

/-- Claim C9 counterexample: at sample rate `199/25` a successful
`configure` sizes the mic ring buffer at `⌊199/25 · 5⌋ = 39` — the
`as usize` cast truncates — whereas `round(199/25 · 5) = 40`. -/
theorem buffer_capacity_not_rounded :
    (CompositeSession.new.configure cfgFractionalRate).2 = Except.ok () ∧
    (CompositeSession.new.configure cfgFractionalRate).1.micBuffer.capacity
      = 39 ∧
    round (cfgFractionalRate.sample_rate * 5) = 40 ∧
    ((CompositeSession.new.configure
        cfgFractionalRate).1.micBuffer.capacity : ℤ) ≠
      round (cfgFractionalRate.sample_rate * 5) := by
  have hrate : cfgFractionalRate.sample_rate = 199 / 25 := rfl
  have hidle : CompositeSession.new.state.is_idle = true := rfl
  have hv : cfgFractionalRate.validate = Except.ok () := by
    rw [CaptureConfiguration.validate]
    norm_num [cfgFractionalRate, CaptureConfiguration.default]
  have h2 : (CompositeSession.new.configure cfgFractionalRate).2 =
      Except.ok () := by
    rw [CompositeSession.configure, if_neg (not_not_intro hidle), hv]
  have hcap : (CompositeSession.new.configure
      cfgFractionalRate).1.micBuffer.capacity =
      (⌊cfgFractionalRate.sample_rate * 5⌋).toNat := by
    rw [CompositeSession.configure, if_neg (not_not_intro hidle), hv]
    rfl
  have hfloor : ⌊cfgFractionalRate.sample_rate * 5⌋ = 39 := by
    rw [hrate]
    norm_num
  have hround : round (cfgFractionalRate.sample_rate * 5) = 40 := by
    rw [hrate, round_eq]
    norm_num
  refine ⟨h2, ?_, hround, ?_⟩
  · rw [hcap, hfloor]
    rfl
  · rw [hcap, hfloor, hround]
    decide

/-- Claim C9 (amended): every successful `configure` with sample rate `r`
allocates the mic ring buffer with capacity `⌊r·5⌋` (the `as usize` cast
truncates toward zero, not `round(r·5)`) and the system ring buffer with
capacity exactly twice the mic capacity. -/
theorem buffer_capacity_spec (s : CompositeSession)
    (cfg : CaptureConfiguration) (hidle : s.state.is_idle = true)
    (hval : cfg.validate = Except.ok ()) :
    (s.configure cfg).2 = Except.ok () ∧
    (s.configure cfg).1.micBuffer.capacity = (⌊cfg.sample_rate * 5⌋).toNat ∧
    (s.configure cfg).1.systemBuffer.capacity =
      2 * (s.configure cfg).1.micBuffer.capacity := by
  refine ⟨?_, ?_, ?_⟩
  · rw [CompositeSession.configure, if_neg (not_not_intro hidle), hval]
  · rw [CompositeSession.configure, if_neg (not_not_intro hidle), hval]
    rfl
  · rw [CompositeSession.configure, if_neg (not_not_intro hidle), hval]
    exact Nat.mul_comm _ 2

/-- Witness for C9 (amended): the default configuration on a fresh session
gives mic capacity `⌊48000·5⌋ = 240000` and system capacity twice that. -/
theorem buffer_capacity_spec_witness :
    CaptureConfiguration.default.validate = Except.ok () ∧
    ((CompositeSession.new.configure CaptureConfiguration.default).2 =
        Except.ok () ∧
      (CompositeSession.new.configure
          CaptureConfiguration.default).1.micBuffer.capacity =
        (⌊CaptureConfiguration.default.sample_rate * 5⌋).toNat ∧
      (CompositeSession.new.configure
          CaptureConfiguration.default).1.systemBuffer.capacity =
        2 * (CompositeSession.new.configure
          CaptureConfiguration.default).1.micBuffer.capacity) := by
  have hval : CaptureConfiguration.default.validate = Except.ok () := by
    rw [CaptureConfiguration.validate]
    norm_num [CaptureConfiguration.default]
  exact ⟨hval, buffer_capacity_spec CompositeSession.new
    CaptureConfiguration.default rfl hval⟩

end AudioCaptureKit
